import Mathlib

/-!
# Verification of `py2puml/py2puml.py`

A shallow embedding of the core of `py2puml.py` (class-model extraction from a
Python syntax tree, namespace resolution from file paths, and PlantUML markup
emission), together with theorems settling the specification claims.

Modelling conventions:
* Python AST nodes are mirrored by the inductive types `Expr` and `Stmt`
  (constructor names follow the `ast` node class names).
* The external renderer `astor.to_source` is modelled abstractly by
  `Expr.to_source` / `joinComma`: every expression carries (or determines) its
  rendered source text.  `.rstrip()` is the identity on these renderings since
  they carry no trailing whitespace.
* The output stream (`dest`) is modelled as the list of text chunks printed to
  it, one chunk per call of `PUML_Generator.indent` (Python's `print` appends
  a newline, and arguments are joined by single spaces).
* Python lists mutated in place become functional record updates.
-/

/-- Indentation unit (`TAB = '  '` in the source). -/
def TAB : String := "  "

/-- `TAB * depth` : the indentation prefix for a given namespace depth. -/
def tabs : Nat → String
  | 0 => ""
  | n + 1 => TAB ++ tabs n

/-- Python's `print(*args)` joins arguments with single spaces. -/
def joinSp : List String → String
  | [] => ""
  | [x] => x
  | x :: xs => x ++ " " ++ joinSp xs

/-- `", ".join` — how `astor` renders a simple positional parameter list. -/
def joinComma : List String → String
  | [] => ""
  | [x] => x
  | x :: xs => x ++ ", " ++ joinComma xs

/-- Python expressions, as far as `py2puml.py` inspects them:
`ast.Name` and `ast.Attribute` are matched by `isinstance` checks in
`visit_Assign`; every other expression shape is only ever rendered back to
source text, so `Other` just carries that rendered text. -/
inductive Expr where
  | Name (id : String)
  | Attribute (value : Expr) (attr : String)
  | Other (src : String)
deriving Repr

/-- `astor.to_source(expr).rstrip()` : the rendered source of an expression. -/
def Expr.to_source : Expr → String
  | .Name id => id
  | .Attribute v attr => v.to_source ++ "." ++ attr
  | .Other src => src

/-- Python statements, as far as the tree visitor distinguishes them.
`ClassDef`, `FunctionDef` and `Assign` have dedicated visitors; every other
statement kind is handled by `ast.NodeVisitor.generic_visit`, which just
recurses into the child statements (`Other`). -/
inductive Stmt where
  | ClassDef (name : String) (bases : List Expr) (body : List Stmt)
  | FunctionDef (name : String) (args : List String) (body : List Stmt)
  | Assign (targets : List Expr)
  | Other (children : List Stmt)
deriving Repr

/-- A stored method node: `print_classinfo` only ever consumes the node's
`name` and its rendered argument list `astor.to_source(m.args)`. -/
structure MethodNode where
  name : String
  args : List String
deriving Repr, DecidableEq

/-- `ClassInfo` : the parsed class definition (`py2puml.py` lines 53-91). -/
structure ClassInfo where
  classname : String
  bases : List Expr
  classvars : List String
  members : List String
  methods : List MethodNode
deriving Repr

/-- `ClassInfo.__init__(node)` : fresh record from a `ClassDef` node. -/
def ClassInfo.init (name : String) (bases : List Expr) : ClassInfo :=
  { classname := name, bases := bases, classvars := [], members := [], methods := [] }

/-- `ClassInfo.visibility` : `'-'` for names starting with `'_'`, else `'+'`
(`name.startswith('_')` is equivalent to the first character being `'_'`;
an empty name yields `'+'`). -/
def ClassInfo.visibility (name : String) : String :=
  if name.data.head? = some '_' then "-" else "+"

/-- `ClassInfo.add_classvar` : appends unconditionally. -/
def ClassInfo.add_classvar (ci : ClassInfo) (name : String) : ClassInfo :=
  { ci with classvars := ci.classvars ++ [name] }

/-- `ClassInfo.add_member` : "Registers an instance variable if new". -/
def ClassInfo.add_member (ci : ClassInfo) (name : String) : ClassInfo :=
  if name ∈ ci.members then ci else { ci with members := ci.members ++ [name] }

/-- `ClassInfo.add_method` : appends the method node. -/
def ClassInfo.add_method (ci : ClassInfo) (name : String) (args : List String) : ClassInfo :=
  { ci with methods := ci.methods ++ [⟨name, args⟩] }

/-- The two configuration options the generator reads
(`config.get('puml', 'prolog'/'epilog', fallback=None)`). -/
structure Config where
  prolog : Option String
  epilog : Option String
deriving Repr

/-- `PUML_Generator` state: output stream (as emitted chunks), project root,
optional configuration, namespace stack, current source name. -/
structure PUML_Generator where
  dest : List String
  root : String
  config : Option Config
  namespaces : List String
  sourcename : Option String
deriving Repr

/-- `PUML_Generator.__init__` . -/
def PUML_Generator.init (root : String) (config : Option Config) : PUML_Generator :=
  { dest := [], root := root, config := config, namespaces := [], sourcename := none }

/-- `depth` property: levels of current namespace nesting. -/
def PUML_Generator.depth (g : PUML_Generator) : Nat := g.namespaces.length

/-- `indent(*args)` : prints `TAB * depth` (only when the namespace stack is
non-empty) followed by the space-joined arguments and a newline; the whole
logical line is one chunk of the output stream. -/
def PUML_Generator.indent (g : PUML_Generator) (args : List String) : PUML_Generator :=
  { g with dest := g.dest ++
      [(if g.namespaces.isEmpty then "" else tabs g.depth) ++ joinSp args ++ "\n"] }

/-- One iteration of the `pop_ns` loop: `self.namespaces.pop()` (removes the
last element) and then `self.indent('}')` — note the brace is printed at the
depth reached *after* popping. -/
def PUML_Generator.pop_once (g : PUML_Generator) : PUML_Generator :=
  let g := { g with namespaces := g.namespaces.dropLast }
  g.indent ["\x7d"]

/-- `pop_ns(count)` : removes `count` inner namespaces. -/
def PUML_Generator.pop_ns : PUML_Generator → Nat → PUML_Generator
  | g, 0 => g
  | g, n + 1 => pop_ns g.pop_once n

/-- `push_ns(name)` : prints the namespace-open line (at the pre-push depth)
and then pushes the name. -/
def PUML_Generator.push_ns (g : PUML_Generator) (name : String) : PUML_Generator :=
  let g := g.indent ["namespace " ++ name ++ " \x7b"]
  { g with namespaces := g.namespaces ++ [name] }

/-- The common-prefix scan in `start_file` (lines 176-182): `n` counts how many
leading entries of the current stack agree with the target segments. -/
def commonLen : List String → List String → Nat
  | [], _ => 0
  | _ :: _, [] => 0
  | d :: ds, x :: xs => if d = x then commonLen ds xs + 1 else 0

/-- `os.path.relpath` on already-normalized paths, at segment level:
strip the common prefix, prepend one `..` per remaining root segment. -/
def relpathSegs (path root : List String) : List String :=
  let n := commonLen root path
  List.replicate (root.length - n) ".." ++ path.drop n

/-- Python's `str.split(sep)` with `sep = '/'` (`os.path.sep`), at character
level: splits on every separator, keeping empty pieces. -/
def splitSepChars : List Char → List (List Char)
  | [] => [[]]
  | c :: cs =>
    match splitSepChars cs with
    | [] => [[]]
    | w :: ws => if c = '/' then [] :: w :: ws else (c :: w) :: ws

/-- A path as its `'/'`-separated segments. -/
def splitPath (s : String) : List String := (splitSepChars s.data).map String.mk

/-- Index of the last `'.'` in a character list, if any. -/
def lastDotIdx : List Char → Option Nat
  | [] => none
  | c :: cs =>
    match lastDotIdx cs with
    | some i => some (i + 1)
    | none => if c = '.' then some 0 else none

/-- The stem part of `os.path.splitext` on a basename: split at the last dot,
unless every character before that dot is itself a dot. -/
def splitextStem (s : String) : String :=
  let cs := s.toList
  match lastDotIdx cs with
  | none => s
  | some i => if (cs.take i).any (fun c => c ≠ '.') then String.mk (cs.take i) else s

/-- `os.path.splitext` applied to a multi-segment relative path only ever
strips an extension from the final segment. -/
def stripExtLast : List String → List String
  | [] => []
  | [s] => [splitextStem s]
  | s :: rest => s :: stripExtLast rest

/-- The namespace segment list `start_file` computes for a source file:
`os.path.splitext(os.path.relpath(sourcename, root))[0].split(os.path.sep)`. -/
def pathToNamespaces (root sourcename : String) : List String :=
  stripExtLast (relpathSegs (splitPath sourcename) (splitPath root))

/-- `start_file(sourcename)` : record the source name; when a root was
supplied, compute the target namespace segments, close everything above the
common prefix with the current stack, then open the remaining segments. -/
def PUML_Generator.start_file (g : PUML_Generator) (sourcename : String) : PUML_Generator :=
  let g := { g with sourcename := some sourcename }
  if g.root = "" then g
  else
    let namespaces := pathToNamespaces g.root sourcename
    let n := commonLen g.namespaces namespaces
    let g := g.pop_ns (g.namespaces.length - n)
    (namespaces.drop n).foldl PUML_Generator.push_ns g

/-- `end_file` : only logs and clears the source name. -/
def PUML_Generator.end_file (g : PUML_Generator) : PUML_Generator :=
  { g with sourcename := none }

/-- `header()` : `@startuml`, then the configured prologue when present and
non-empty (Python truthiness of the string). -/
def PUML_Generator.header (g : PUML_Generator) : PUML_Generator :=
  let g := g.indent ["@startuml"]
  match g.config with
  | some cfg =>
    match cfg.prolog with
    | some p => if p ≠ "" then g.indent [p ++ "\n"] else g
    | none => g
  | none => g

/-- `footer()` : close all namespaces (the `while` loop's first iteration pops
the whole remaining depth), then the configured epilogue, then `@enduml`. -/
def PUML_Generator.footer (g : PUML_Generator) : PUML_Generator :=
  let g := g.pop_ns g.depth
  let g :=
    match g.config with
    | some cfg =>
      match cfg.epilog with
      | some e => if e ≠ "" then g.indent [e ++ "\n"] else g
      | none => g
    | none => g
  g.indent ["@enduml"]

/-- `print_classinfo(classinfo)` : inheritance lines for all bases whose
rendered source is not `'object'`, the class header, `{static}` class
variables, instance members, methods with rendered argument lists, and the
closing brace (followed by a blank line). -/
def PUML_Generator.print_classinfo (g : PUML_Generator) (ci : ClassInfo) : PUML_Generator :=
  let g := ci.bases.foldl (fun g base =>
    let expr := base.to_source
    if expr ≠ "object" then g.indent [expr, "<|--", ci.classname] else g) g
  let g := g.indent ["class", ci.classname, "\x7b"]
  let g := ci.classvars.foldl (fun g m =>
    g.indent [TAB ++ "\x7bstatic\x7d", ClassInfo.visibility m ++ m]) g
  let g := ci.members.foldl (fun g m =>
    g.indent [TAB ++ ClassInfo.visibility m ++ m]) g
  let g := ci.methods.foldl (fun g m =>
    g.indent [TAB ++ ClassInfo.visibility m.name ++ m.name ++ "(" ++ joinComma m.args ++ ")"]) g
  g.indent ["\x7d\n"]

/-- `TreeVisitor` state: the generator it reports to (`context`), the
in-progress `classinfo` (if any), the constructor-mode flag, and — as a ghost
trace — the sequence `emitted` of completed records handed to
`context.print_classinfo` by `ClassInfo.done`, in call order. -/
structure TreeVisitor where
  context : PUML_Generator
  classinfo : Option ClassInfo
  constructor : Bool
  emitted : List ClassInfo

/-- `TreeVisitor.__init__(context)` . -/
def TreeVisitor.init (context : PUML_Generator) : TreeVisitor :=
  { context := context, classinfo := none, constructor := false, emitted := [] }

/-- The target scan of `visit_Assign` in constructor mode: register
`target.attr` for every target of shape `self.<attr>`. -/
def assignMembers (ci : Option ClassInfo) (targets : List Expr) : Option ClassInfo :=
  targets.foldl (fun ci t =>
    match t with
    | .Attribute (.Name id) attr => if id = "self" then ci.map (·.add_member attr) else ci
    | _ => ci) ci

/-- The target scan of `visit_Assign` outside constructor mode: register
`target.id` for every plain-name target. -/
def assignClassvars (ci : Option ClassInfo) (targets : List Expr) : Option ClassInfo :=
  targets.foldl (fun ci t =>
    match t with
    | .Name id => ci.map (·.add_classvar id)
    | _ => ci) ci

mutual
/-- `TreeVisitor.visit` dispatch: `visit_ClassDef`, `visit_FunctionDef`,
`visit_Assign`, and `generic_visit` for every other statement kind. -/
def visit (v : TreeVisitor) : Stmt → TreeVisitor
  | .ClassDef name bases body =>
    -- visit_ClassDef: push context, traverse the body, report the completed
    -- record (ClassInfo.done -> context.print_classinfo), restore context.
    let prev := v.classinfo
    let v1 := { v with classinfo := some (ClassInfo.init name bases) }
    let v2 := visitList v1 body
    match v2.classinfo with
    | some ci =>
      { v2 with
        context := v2.context.print_classinfo ci
        emitted := v2.emitted ++ [ci]
        classinfo := prev }
    | none => { v2 with classinfo := prev } -- unreachable: classinfo is some here
  | .FunctionDef name args body =>
    -- visit_FunctionDef: only acts inside a class; a method named __init__
    -- has its body traversed with the constructor flag raised; every such
    -- function is then registered as a method.
    match v.classinfo with
    | some _ =>
      let v1 :=
        if name = "__init__" then
          let v' := visitList { v with constructor := true } body
          { v' with constructor := false }
        else v
      { v1 with classinfo := v1.classinfo.map (fun ci => ci.add_method name args) }
    | none => v
  | .Assign targets =>
    -- visit_Assign: constructor mode registers self-attributes as instance
    -- members; otherwise, inside a class, plain names become class variables.
    if v.constructor then
      { v with classinfo := assignMembers v.classinfo targets }
    else
      match v.classinfo with
      | some _ => { v with classinfo := assignClassvars v.classinfo targets }
      | none => v
  | .Other children => visitList v children

/-- Sequential traversal of a statement list (class bodies, constructor
bodies, `generic_visit` children, module bodies). -/
def visitList (v : TreeVisitor) : List Stmt → TreeVisitor
  | [] => v
  | t :: ts => visitList (visit v t) ts
end

/-- Processing one input file inside the `__main__` loop: `start_file`,
visit the parsed tree (a module body), `end_file`. -/
def processFile (v : TreeVisitor) (f : String × List Stmt) : TreeVisitor :=
  let v1 : TreeVisitor := { v with context := v.context.start_file f.1 }
  let v2 := visitList v1 f.2
  { v2 with context := v2.context.end_file }

/-- The `__main__` pipeline on already-parsed trees: build the generator and
visitor, emit the header, then process each file in order; finally emit the
footer. -/
def run (root : String) (config : Option Config) (files : List (String × List Stmt)) :
    TreeVisitor :=
  let v0 := TreeVisitor.init (PUML_Generator.init root config)
  let v1 : TreeVisitor := { v0 with context := v0.context.header }
  let v2 := files.foldl processFile v1
  { v2 with context := v2.context.footer }

/-! ## Generic lemmas about the generator and the traversal -/

/-- `g'` extends `g` by only appending output chunks: every other generator
field is untouched. -/
def DestExt (g g' : PUML_Generator) : Prop :=
  g'.root = g.root ∧ g'.config = g.config ∧ g'.namespaces = g.namespaces ∧
    g'.sourcename = g.sourcename ∧ ∃ d, g'.dest = g.dest ++ d

theorem DestExt.drefl (g : PUML_Generator) : DestExt g g :=
  ⟨rfl, rfl, rfl, rfl, [], by simp⟩

theorem DestExt.dtrans {g₁ g₂ g₃ : PUML_Generator} (h₁ : DestExt g₁ g₂) (h₂ : DestExt g₂ g₃) :
    DestExt g₁ g₃ := by
  obtain ⟨r₁, c₁, n₁, s₁, d₁, hd₁⟩ := h₁
  obtain ⟨r₂, c₂, n₂, s₂, d₂, hd₂⟩ := h₂
  exact ⟨r₂.trans r₁, c₂.trans c₁, n₂.trans n₁, s₂.trans s₁, d₁ ++ d₂, by simp [hd₂, hd₁]⟩

theorem DestExt.indent (g : PUML_Generator) (args : List String) :
    DestExt g (g.indent args) :=
  ⟨rfl, rfl, rfl, rfl, [_], rfl⟩

theorem DestExt.foldl_indent {α : Type} (mk : PUML_Generator → α → PUML_Generator)
    (hmk : ∀ g a, DestExt g (mk g a)) :
    ∀ (l : List α) (g : PUML_Generator), DestExt g (l.foldl mk g) := by
  intro l
  induction l with
  | nil => intro g; exact DestExt.drefl g
  | cons a l ih => intro g; exact (hmk g a).dtrans (ih (mk g a))

/-- `print_classinfo` only appends output chunks. -/
theorem print_classinfo_destExt (g : PUML_Generator) (ci : ClassInfo) :
    DestExt g (g.print_classinfo ci) := by
  unfold PUML_Generator.print_classinfo
  refine DestExt.dtrans ?_ (DestExt.indent _ _)
  refine DestExt.dtrans ?_ (DestExt.foldl_indent _ (fun g a => DestExt.indent _ _) _ _)
  refine DestExt.dtrans ?_ (DestExt.foldl_indent _ (fun g a => DestExt.indent _ _) _ _)
  refine DestExt.dtrans ?_ (DestExt.foldl_indent _ (fun g a => DestExt.indent _ _) _ _)
  refine DestExt.dtrans ?_ (DestExt.indent _ _)
  refine DestExt.foldl_indent _ (fun g b => ?_) _ _
  dsimp only
  split
  · exact DestExt.indent _ _
  · exact DestExt.drefl _

/-- A traversal step only appends to the output stream and to the trace of
reported records; the generator's namespace stack, root, configuration and
source name are untouched by the visitor. -/
theorem visit_destExt_all :
    (∀ (v : TreeVisitor) (t : Stmt), DestExt v.context (visit v t).context ∧
      ∃ d, (visit v t).emitted = v.emitted ++ d) ∧
    (∀ (v : TreeVisitor) (l : List Stmt), DestExt v.context (visitList v l).context ∧
      ∃ d, (visitList v l).emitted = v.emitted ++ d) := by
  apply visit.mutual_induct
    (fun v t => DestExt v.context (visit v t).context ∧
      ∃ d, (visit v t).emitted = v.emitted ++ d)
    (fun v l => DestExt v.context (visitList v l).context ∧
      ∃ d, (visitList v l).emitted = v.emitted ++ d)
  case case1 =>
    intro v name bases body v1 v2 ci hci ih
    simp only [visit]
    split
    case h_1 ci' hci' =>
      obtain ⟨d, hd⟩ := ih.2
      refine ⟨ih.1.dtrans (print_classinfo_destExt _ ci'), d ++ [ci'], ?_⟩
      show (visitList v1 body).emitted ++ [ci'] = v.emitted ++ (d ++ [ci'])
      rw [hd]
      show v.emitted ++ d ++ [ci'] = v.emitted ++ (d ++ [ci'])
      rw [List.append_assoc]
    case h_2 hci' => exact ih
  case case2 =>
    intro v name bases body v1 v2 hci ih
    simp only [visit]
    split
    case h_1 ci' hci' =>
      obtain ⟨d, hd⟩ := ih.2
      refine ⟨ih.1.dtrans (print_classinfo_destExt _ ci'), d ++ [ci'], ?_⟩
      show (visitList v1 body).emitted ++ [ci'] = v.emitted ++ (d ++ [ci'])
      rw [hd]
      show v.emitted ++ d ++ [ci'] = v.emitted ++ (d ++ [ci'])
      rw [List.append_assoc]
    case h_2 hci' => exact ih
  case case3 =>
    intro v name args body ci hci ih
    rw [hci] at ih
    simp only [visit, hci]
    by_cases hn : name = "__init__" <;> simp only [hn, if_true, if_false, reduceIte]
    · exact ih
    · exact ⟨DestExt.drefl _, [], by simp⟩
  case case4 =>
    intro v name args body hci
    simp only [visit, hci]
    exact ⟨DestExt.drefl _, [], by simp⟩
  case case5 =>
    intro v targets hc
    simp only [visit, hc, if_true]
    exact ⟨DestExt.drefl _, [], by simp⟩
  case case6 =>
    intro v targets hc ci hci
    simp only [visit, if_neg hc, hci]
    exact ⟨DestExt.drefl _, [], by simp⟩
  case case7 =>
    intro v targets hc hci
    simp only [visit, if_neg hc, hci]
    exact ⟨DestExt.drefl _, [], by simp⟩
  case case8 =>
    intro v children ih
    simpa only [visit] using ih
  case case9 =>
    intro v
    exact ⟨DestExt.drefl _, [], by simp [visitList]⟩
  case case10 =>
    intro v t ts ih1 ih2
    obtain ⟨de1, d1, hd1⟩ := ih1
    obtain ⟨de2, d2, hd2⟩ := ih2
    simp only [visitList]
    exact ⟨de1.dtrans de2, d1 ++ d2, by rw [hd2, hd1, List.append_assoc]⟩

/-- Once the constructor flag is down it stays down across any traversal:
`visit_FunctionDef` always lowers it again before returning. -/
theorem visit_flag_all :
    (∀ (v : TreeVisitor) (t : Stmt), v.constructor = false → (visit v t).constructor = false) ∧
    (∀ (v : TreeVisitor) (l : List Stmt), v.constructor = false → (visitList v l).constructor = false) := by
  apply visit.mutual_induct
    (fun v t => v.constructor = false → (visit v t).constructor = false)
    (fun v l => v.constructor = false → (visitList v l).constructor = false)
  case case1 =>
    intro v name bases body v1 v2 ci hci ih h
    simp only [visit]
    split <;> exact ih h
  case case2 =>
    intro v name bases body v1 v2 hci ih h
    simp only [visit]
    split <;> exact ih h
  case case3 =>
    intro v name args body ci hci ih h
    simp only [visit, hci]
    by_cases hn : name = "__init__" <;> simp [hn, h]
  case case4 =>
    intro v name args body hci h
    simp only [visit, hci]
    exact h
  case case5 =>
    intro v targets hc h
    rw [h] at hc; cases hc
  case case6 =>
    intro v targets hc ci hci h
    simp only [visit, if_neg hc, hci]
    exact h
  case case7 =>
    intro v targets hc hci h
    simp only [visit, if_neg hc, hci]
    exact h
  case case8 =>
    intro v children ih h
    simp only [visit]
    exact ih h
  case case9 =>
    intro v h
    simpa [visitList] using h
  case case10 =>
    intro v t ts ih1 ih2 h
    simp only [visitList]
    exact ih2 (ih1 h)

/-- Relation between the in-progress record before and after a traversal step:
absence is preserved, and a present record keeps its name and base list
(only `classvars` / `members` / `methods` ever change). -/
def KeepsClass : Option ClassInfo → Option ClassInfo → Prop
  | none, o => o = none
  | some c, o => ∃ c', o = some c' ∧ c'.classname = c.classname ∧ c'.bases = c.bases

theorem KeepsClass.krefl : ∀ (o : Option ClassInfo), KeepsClass o o
  | none => rfl
  | some c => ⟨c, rfl, rfl, rfl⟩

theorem KeepsClass.ktrans : ∀ {o₁ o₂ o₃ : Option ClassInfo},
    KeepsClass o₁ o₂ → KeepsClass o₂ o₃ → KeepsClass o₁ o₃ := by
  intro o₁ o₂ o₃ h₁ h₂
  match o₁, h₁ with
  | none, h₁ => subst h₁; exact h₂
  | some c, ⟨c', hc', hn, hb⟩ =>
    subst hc'
    obtain ⟨c'', hc'', hn', hb'⟩ := h₂
    exact ⟨c'', hc'', hn'.trans hn, hb'.trans hb⟩

theorem KeepsClass.map {f : ClassInfo → ClassInfo}
    (hf : ∀ c, (f c).classname = c.classname ∧ (f c).bases = c.bases) :
    ∀ (o : Option ClassInfo), KeepsClass o (o.map f)
  | none => rfl
  | some c => ⟨f c, rfl, (hf c).1, (hf c).2⟩

theorem assignMembers_keeps (targets : List Expr) :
    ∀ (o : Option ClassInfo), KeepsClass o (assignMembers o targets) := by
  induction targets with
  | nil => intro o; exact KeepsClass.krefl o
  | cons t ts ih =>
    intro o
    simp only [assignMembers, List.foldl_cons]
    refine KeepsClass.ktrans ?_ (ih _)
    match t with
    | .Name id => exact KeepsClass.krefl o
    | .Other src => exact KeepsClass.krefl o
    | .Attribute (.Name id) attr =>
      dsimp only
      split
      · exact KeepsClass.map (fun c => by simp [ClassInfo.add_member]; split <;> simp) o
      · exact KeepsClass.krefl o
    | .Attribute (.Attribute v a) attr => exact KeepsClass.krefl o
    | .Attribute (.Other src) attr => exact KeepsClass.krefl o

theorem assignClassvars_keeps (targets : List Expr) :
    ∀ (o : Option ClassInfo), KeepsClass o (assignClassvars o targets) := by
  induction targets with
  | nil => intro o; exact KeepsClass.krefl o
  | cons t ts ih =>
    intro o
    simp only [assignClassvars, List.foldl_cons]
    refine KeepsClass.ktrans ?_ (ih _)
    match t with
    | .Name id => exact KeepsClass.map (fun c => by simp [ClassInfo.add_classvar]) o
    | .Other src => exact KeepsClass.krefl o
    | .Attribute v attr => exact KeepsClass.krefl o

/-- Master invariant: a traversal step keeps the identity (name and bases) of
the in-progress record — in particular `visit_ClassDef` restores exactly the
record that was in progress when it was entered. -/
theorem visit_keeps_all :
    (∀ (v : TreeVisitor) (t : Stmt), KeepsClass v.classinfo (visit v t).classinfo) ∧
    (∀ (v : TreeVisitor) (l : List Stmt), KeepsClass v.classinfo (visitList v l).classinfo) := by
  apply visit.mutual_induct
    (fun v t => KeepsClass v.classinfo (visit v t).classinfo)
    (fun v l => KeepsClass v.classinfo (visitList v l).classinfo)
  case case1 =>
    intro v name bases body v1 v2 ci hci ih
    simp only [visit]
    split <;> exact KeepsClass.krefl _
  case case2 =>
    intro v name bases body v1 v2 hci ih
    simp only [visit]
    split <;> exact KeepsClass.krefl _
  case case3 =>
    intro v name args body ci hci ih
    rw [hci] at ih
    simp only [visit, hci]
    by_cases hn : name = "__init__" <;> simp only [hn, reduceIte, hci]
    · exact KeepsClass.ktrans ih
        (@KeepsClass.map (fun c => c.add_method "__init__" args) (fun c => ⟨rfl, rfl⟩) _)
    · exact @KeepsClass.map (fun c => c.add_method name args) (fun c => ⟨rfl, rfl⟩) _
  case case4 =>
    intro v name args body hci
    simp only [visit, hci]
    exact KeepsClass.krefl _
  case case5 =>
    intro v targets hc
    simp only [visit, hc, if_true]
    exact assignMembers_keeps targets v.classinfo
  case case6 =>
    intro v targets hc ci hci
    simp only [visit, if_neg hc, hci]
    exact hci ▸ assignClassvars_keeps targets v.classinfo
  case case7 =>
    intro v targets hc hci
    simp only [visit, if_neg hc, hci]
    exact KeepsClass.krefl _
  case case8 =>
    intro v children ih
    simpa only [visit] using ih
  case case9 =>
    intro v
    simp only [visitList]
    exact KeepsClass.krefl _
  case case10 =>
    intro v t ts ih1 ih2
    simp only [visitList]
    exact ih1.ktrans ih2

/-- The evolution of the visitor's `classinfo` and `constructor` fields
depends only on those two fields: the generator state and the trace of
reported records are never read back by the traversal. -/
theorem visit_proj_all :
    (∀ (v : TreeVisitor) (t : Stmt), ∀ w : TreeVisitor,
      w.classinfo = v.classinfo → w.constructor = v.constructor →
      (visit w t).classinfo = (visit v t).classinfo ∧
        (visit w t).constructor = (visit v t).constructor) ∧
    (∀ (v : TreeVisitor) (l : List Stmt), ∀ w : TreeVisitor,
      w.classinfo = v.classinfo → w.constructor = v.constructor →
      (visitList w l).classinfo = (visitList v l).classinfo ∧
        (visitList w l).constructor = (visitList v l).constructor) := by
  apply visit.mutual_induct
    (fun v t => ∀ w : TreeVisitor,
      w.classinfo = v.classinfo → w.constructor = v.constructor →
      (visit w t).classinfo = (visit v t).classinfo ∧
        (visit w t).constructor = (visit v t).constructor)
    (fun v l => ∀ w : TreeVisitor,
      w.classinfo = v.classinfo → w.constructor = v.constructor →
      (visitList w l).classinfo = (visitList v l).classinfo ∧
        (visitList w l).constructor = (visitList v l).constructor)
  case case1 =>
    intro v name bases body v1 v2 ci hci ih w hwc hwf
    have hciv : (visitList { v with classinfo := some (ClassInfo.init name bases) }
        body).classinfo = some ci := hci
    have hproj := ih { w with classinfo := some (ClassInfo.init name bases) } rfl hwf
    have hciw : (visitList { w with classinfo := some (ClassInfo.init name bases) }
        body).classinfo = some ci := hproj.1.trans hciv
    simp only [visit, hciv, hciw]
    exact ⟨hwc, hproj.2⟩
  case case2 =>
    intro v name bases body v1 v2 hci ih w hwc hwf
    have hciv : (visitList { v with classinfo := some (ClassInfo.init name bases) }
        body).classinfo = none := hci
    have hproj := ih { w with classinfo := some (ClassInfo.init name bases) } rfl hwf
    have hciw : (visitList { w with classinfo := some (ClassInfo.init name bases) }
        body).classinfo = none := hproj.1.trans hciv
    simp only [visit, hciv, hciw]
    exact ⟨hwc, hproj.2⟩
  case case3 =>
    intro v name args body ci hci ih w hwc hwf
    have hciw : w.classinfo = some ci := hwc.trans hci
    rw [hci] at ih
    simp only [visit, hci, hciw]
    by_cases hn : name = "__init__" <;> simp only [hn, reduceIte, hci, hciw]
    · have hproj := ih { w with classinfo := some ci, constructor := true } rfl rfl
      refine ⟨?_, ?_⟩ <;> first | trivial | rfl | exact hwf | rw [hproj.1]
    · refine ⟨?_, ?_⟩ <;> trivial
  case case4 =>
    intro v name args body hci w hwc hwf
    have hciw : w.classinfo = none := hwc.trans hci
    simp only [visit, hci, hciw]
    refine ⟨?_, ?_⟩ <;> trivial
  case case5 =>
    intro v targets hc w hwc hwf
    have hcw : w.constructor = true := hwf.trans hc
    simp only [visit, hc, hcw, if_true]
    refine ⟨?_, ?_⟩ <;> first | trivial | rw [hwc]
  case case6 =>
    intro v targets hc ci hci w hwc hwf
    have hcw : ¬ w.constructor = true := fun h => hc (hwf.symm.trans h)
    have hciw : w.classinfo = some ci := hwc.trans hci
    simp only [visit, if_neg hc, if_neg hcw, hci, hciw]
    refine ⟨?_, ?_⟩ <;> trivial
  case case7 =>
    intro v targets hc hci w hwc hwf
    have hcw : ¬ w.constructor = true := fun h => hc (hwf.symm.trans h)
    have hciw : w.classinfo = none := hwc.trans hci
    simp only [visit, if_neg hc, if_neg hcw, hci, hciw]
    refine ⟨?_, ?_⟩ <;> trivial
  case case8 =>
    intro v children ih w hwc hwf
    simp only [visit]
    exact ih w hwc hwf
  case case9 =>
    intro v w hwc hwf
    simp only [visitList]
    exact ⟨hwc, hwf⟩
  case case10 =>
    intro v t ts ih1 ih2 w hwc hwf
    simp only [visitList]
    have h1 := ih1 w hwc hwf
    exact ih2 (visit w t) h1.1 h1.2

theorem visitList_append (l₁ l₂ : List Stmt) :
    ∀ v : TreeVisitor, visitList v (l₁ ++ l₂) = visitList (visitList v l₁) l₂ := by
  induction l₁ with
  | nil => intro v; simp [visitList]
  | cons t ts ih => intro v; simp only [List.cons_append, visitList]; exact ih _

/-- Reducing `visit_ClassDef` when the record at the end of the body
traversal is known: the completed record is reported (appended to the trace
and printed), and the previous in-progress record is restored. -/
theorem visit_ClassDef_emit (v : TreeVisitor) (cn : String) (bases : List Expr)
    (body : List Stmt) (ci : ClassInfo)
    (h : (visitList { v with classinfo := some (ClassInfo.init cn bases) } body).classinfo
      = some ci) :
    (visit v (.ClassDef cn bases body)).emitted =
      (visitList { v with classinfo := some (ClassInfo.init cn bases) } body).emitted ++ [ci] ∧
    (visit v (.ClassDef cn bases body)).classinfo = v.classinfo ∧
    (visit v (.ClassDef cn bases body)).context =
      (visitList { v with classinfo := some (ClassInfo.init cn bases) }
        body).context.print_classinfo ci := by
  simp only [visit, h]
  refine ⟨?_, ?_, ?_⟩ <;> trivial

theorem assignMembers_self (c : ClassInfo) (nm : String) :
    assignMembers (some c) [.Attribute (.Name "self") nm] = some (c.add_member nm) := by
  simp [assignMembers]

/-- Traversing a run of `self.<name> = ...` assignments in constructor mode
folds `add_member` over the names; nothing else in the state changes. -/
theorem visitList_selfAssigns (names : List String) : ∀ (v : TreeVisitor) (c : ClassInfo),
    v.classinfo = some c → v.constructor = true →
    visitList v (names.map (fun nm => Stmt.Assign [.Attribute (.Name "self") nm])) =
      { v with classinfo := some (names.foldl ClassInfo.add_member c) } := by
  induction names with
  | nil =>
    intro v c hc _
    cases v; cases hc; simp [visitList]
  | cons nm names ih =>
    intro v c hc hf
    simp only [List.map_cons, visitList, List.foldl_cons]
    rw [show visit v (.Assign [.Attribute (.Name "self") nm])
        = { v with classinfo := some (c.add_member nm) } from by
      simp [visit, hf, hc, assignMembers]]
    exact ih _ (c.add_member nm) rfl hf

theorem assignClassvars_names (xs : List String) : ∀ c : ClassInfo,
    assignClassvars (some c) (xs.map Expr.Name) = some (xs.foldl ClassInfo.add_classvar c) := by
  induction xs with
  | nil => intro c; simp [assignClassvars]
  | cons x xs ih => intro c; simp only [List.map_cons, assignClassvars, List.foldl_cons] at *; exact ih _

/-- Traversing a run of plain-name assignments inside a class body (outside
constructor mode) folds `add_classvar` over every name, in order. -/
theorem visitList_nameAssigns (xss : List (List String)) : ∀ (v : TreeVisitor) (c : ClassInfo),
    v.classinfo = some c → v.constructor = false →
    visitList v (xss.map (fun xs => Stmt.Assign (xs.map Expr.Name))) =
      { v with classinfo := some (xss.foldl (fun c xs => xs.foldl ClassInfo.add_classvar c) c) } := by
  induction xss with
  | nil =>
    intro v c hc _
    cases v; cases hc; simp [visitList]
  | cons xs xss ih =>
    intro v c hc hf
    simp only [List.map_cons, visitList, List.foldl_cons]
    rw [show visit v (.Assign (xs.map Expr.Name))
        = { v with classinfo := some (xs.foldl ClassInfo.add_classvar c) } from by
      simp [visit, hf, hc, assignClassvars_names]]
    exact ih _ _ rfl hf

theorem foldl_add_member_members (names : List String) : ∀ c : ClassInfo,
    (names.foldl ClassInfo.add_member c).members =
      names.foldl (fun acc n => if n ∈ acc then acc else acc ++ [n]) c.members := by
  induction names with
  | nil => intro c; rfl
  | cons n names ih =>
    intro c
    simp only [List.foldl_cons, ih]
    unfold ClassInfo.add_member
    split <;> simp_all

theorem foldl_add_classvar_classvars (xs : List String) : ∀ c : ClassInfo,
    (xs.foldl ClassInfo.add_classvar c).classvars = c.classvars ++ xs := by
  induction xs with
  | nil => intro c; simp
  | cons x xs ih => intro c; simp [List.foldl_cons, ih, ClassInfo.add_classvar]

/-- Specification-side definition (spec 3: "insertion order = first-seen
order; duplicates silently ignored"): keep only the first occurrence of each
name. -/
def dedupFirstOcc (names : List String) : List String :=
  names.foldl (fun acc n => if n ∈ acc then acc else acc ++ [n]) []

theorem foldl_dedup_nodup (names : List String) : ∀ acc : List String,
    acc.Nodup → (names.foldl (fun acc n => if n ∈ acc then acc else acc ++ [n]) acc).Nodup := by
  induction names with
  | nil => intro acc h; exact h
  | cons n names ih =>
    intro acc h
    simp only [List.foldl_cons]
    split
    · exact ih acc h
    · refine ih _ ?_
      simp_all [List.nodup_append]

theorem foldl_dedup_mem (names : List String) : ∀ (acc : List String) (x : String),
    x ∈ names.foldl (fun acc n => if n ∈ acc then acc else acc ++ [n]) acc ↔
      x ∈ acc ∨ x ∈ names := by
  induction names with
  | nil => intro acc x; simp
  | cons n names ih =>
    intro acc x
    simp only [List.foldl_cons]
    split
    · rw [ih]; simp; constructor
      · rintro (h | h)
        · exact .inl h
        · exact .inr (.inr h)
      · rintro (h | h | h)
        · exact .inl h
        · cases h; exact .inl (by assumption)
        · exact .inr h
    · rw [ih]; simp; constructor
      · rintro ((h | h) | h)
        · exact .inl h
        · exact .inr (.inl h)
        · exact .inr (.inr h)
      · rintro (h | h | h)
        · exact .inl (.inl h)
        · exact .inl (.inr h)
        · exact .inr h

theorem dedupFirstOcc_nodup (names : List String) : (dedupFirstOcc names).Nodup :=
  foldl_dedup_nodup names [] List.nodup_nil

theorem dedupFirstOcc_mem (names : List String) (x : String) :
    x ∈ dedupFirstOcc names ↔ x ∈ names := by
  rw [dedupFirstOcc, foldl_dedup_mem]; simp

theorem foldl_foldl_classvars (xss : List (List String)) : ∀ c : ClassInfo,
    (xss.foldl (fun c xs => xs.foldl ClassInfo.add_classvar c) c).classvars =
      c.classvars ++ xss.flatten := by
  induction xss with
  | nil => intro c; simp
  | cons xs xss ih =>
    intro c
    simp [List.foldl_cons, ih, foldl_add_classvar_classvars, List.append_assoc]

/-! ## Claim C5 -/

/-- **C5** (confirmed): if a constructor body assigns `self.<name>` for a
sequence of names in which a name may repeat (N>1 occurrences), the reported
record's `instanceMembers` keeps exactly the first occurrence of each name,
in first-seen order (`dedupFirstOcc`), and therefore never contains
duplicates. -/
theorem C5_instance_members_dedup (s : TreeVisitor) (hc : s.constructor = false)
    (cn : String) (bases : List Expr) (args : List String) (names : List String) :
    ∃ r : ClassInfo,
      (visit s (.ClassDef cn bases
        [.FunctionDef "__init__" args
          (names.map (fun nm => .Assign [.Attribute (.Name "self") nm]))])).emitted
        = s.emitted ++ [r] ∧
      r.members = dedupFirstOcc names ∧
      r.members.Nodup ∧
      (∀ nm : String, nm ∈ r.members ↔ nm ∈ names) := by
  have hinner := visitList_selfAssigns names
    { s with classinfo := some (ClassInfo.init cn bases), constructor := true }
    (ClassInfo.init cn bases) rfl rfl
  have hbody : visitList { s with classinfo := some (ClassInfo.init cn bases) }
      [Stmt.FunctionDef "__init__" args
        (names.map (fun nm => .Assign [.Attribute (.Name "self") nm]))] =
      { s with classinfo := some ((names.foldl ClassInfo.add_member
          (ClassInfo.init cn bases)).add_method "__init__" args) } := by
    simp only [visitList, visit, reduceIte]
    rw [hinner]
    simp [hc]
  obtain ⟨hem, hcl, hctx⟩ := visit_ClassDef_emit s cn bases _ _ (by rw [hbody])
  refine ⟨(names.foldl ClassInfo.add_member (ClassInfo.init cn bases)).add_method
    "__init__" args, ?_, ?_, ?_, ?_⟩
  · rw [hem, hbody]
  · simp [ClassInfo.add_method, foldl_add_member_members, ClassInfo.init, dedupFirstOcc]
  · simp only [ClassInfo.add_method, foldl_add_member_members, ClassInfo.init]
    exact dedupFirstOcc_nodup names
  · intro nm
    simp only [ClassInfo.add_method, foldl_add_member_members, ClassInfo.init]
    exact dedupFirstOcc_mem names nm

/-- Witness for C5 at a concrete input (name `a` assigned twice). -/
theorem C5_witness :
    ∃ r : ClassInfo,
      (visit (TreeVisitor.init (PUML_Generator.init "" none)) (.ClassDef "C" []
        [.FunctionDef "__init__" ["self"]
          ((["a", "a", "b"] : List String).map
            (fun nm => .Assign [.Attribute (.Name "self") nm]))])).emitted
        = (TreeVisitor.init (PUML_Generator.init "" none)).emitted ++ [r] ∧
      r.members = dedupFirstOcc ["a", "a", "b"] ∧
      r.members.Nodup ∧
      (∀ nm : String, nm ∈ r.members ↔ nm ∈ (["a", "a", "b"] : List String)) :=
  C5_instance_members_dedup (TreeVisitor.init (PUML_Generator.init "" none)) rfl
    "C" [] ["self"] ["a", "a", "b"]

/-! ## Claim C7 -/

/-- **C7** (counterexample): a class body that assigns the same plain name
twice yields a `classVariables` list with that name twice —
`add_classvar` appends unconditionally, so `classVariables` is *not*
duplicate-free as claimed. -/
theorem C7_counterexample :
    ((visit (TreeVisitor.init (PUML_Generator.init "" none))
        (.ClassDef "C" [] [.Assign [.Name "x"], .Assign [.Name "x"]])).emitted.map
      (fun r => r.classvars)) = [["x", "x"]] ∧
    ¬ (["x", "x"] : List String).Nodup :=
  ⟨by decide, by decide⟩

/-- **C7** (amended): `classVariables` records *every* plain-name assignment
made directly in the class body, in order, duplicates included — a name
assigned k times appears k times. -/
theorem C7_amended_classvars_keep_duplicates (s : TreeVisitor) (hc : s.constructor = false)
    (cn : String) (bases : List Expr) (xss : List (List String)) :
    ∃ r : ClassInfo,
      (visit s (.ClassDef cn bases (xss.map (fun xs => .Assign (xs.map Expr.Name))))).emitted
        = s.emitted ++ [r] ∧
      r.classvars = xss.flatten ∧
      ∀ x : String, r.classvars.count x = xss.flatten.count x := by
  have hbody := visitList_nameAssigns xss
    { s with classinfo := some (ClassInfo.init cn bases) } (ClassInfo.init cn bases) rfl hc
  obtain ⟨hem, hcl, hctx⟩ := visit_ClassDef_emit s cn bases _ _ (by rw [hbody])
  refine ⟨xss.foldl (fun c xs => xs.foldl ClassInfo.add_classvar c) (ClassInfo.init cn bases),
    ?_, ?_, fun x => ?_⟩
  · rw [hem, hbody]
  · simp [foldl_foldl_classvars, ClassInfo.init]
  · simp [foldl_foldl_classvars, ClassInfo.init]

/-- Witness for the amended C7 at a concrete input (`x` assigned twice). -/
theorem C7_amended_witness :
    ∃ r : ClassInfo,
      (visit (TreeVisitor.init (PUML_Generator.init "" none)) (.ClassDef "C" []
        (([["x"], ["x"]] : List (List String)).map
          (fun xs => .Assign (xs.map Expr.Name))))).emitted
        = (TreeVisitor.init (PUML_Generator.init "" none)).emitted ++ [r] ∧
      r.classvars = ([["x"], ["x"]] : List (List String)).flatten ∧
      ∀ x : String, r.classvars.count x = ([["x"], ["x"]] : List (List String)).flatten.count x :=
  C7_amended_classvars_keep_duplicates (TreeVisitor.init (PUML_Generator.init "" none)) rfl
    "C" [] [["x"], ["x"]]

/-! ## Claim C10 -/

/-- **C10** (confirmed): the body of a function definition is never traversed
unless the function is a constructor inside a class: outside any class the
visitor does nothing at all, and inside a class a non-`__init__` method's
result is independent of its body — no records, members, class variables or
output can arise from statements nested in it (only the method itself is
registered). -/
theorem C10_function_bodies_skipped (v : TreeVisitor) (name : String)
    (args : List String) (body : List Stmt) :
    (v.classinfo = none → visit v (.FunctionDef name args body) = v) ∧
    (name ≠ "__init__" →
      visit v (.FunctionDef name args body) = visit v (.FunctionDef name args []) ∧
      (visit v (.FunctionDef name args body)).context = v.context ∧
      (visit v (.FunctionDef name args body)).emitted = v.emitted) := by
  constructor
  · intro h; simp [visit, h]
  · intro hn
    cases hvc : v.classinfo <;> simp [visit, hvc, hn]

/-- Witness for C10: a function body containing a class definition and an
assignment is ignored both outside a class and (for a non-constructor
method) inside one. -/
theorem C10_witness :
    (visit (TreeVisitor.init (PUML_Generator.init "" none))
      (.FunctionDef "helper" ["self"] [.ClassDef "Hidden" [] [], .Assign [.Name "x"]])
      = TreeVisitor.init (PUML_Generator.init "" none)) ∧
    (visit (TreeVisitor.init (PUML_Generator.init "" none))
        (.FunctionDef "helper" ["self"] [.ClassDef "Hidden" [] [], .Assign [.Name "x"]])
      = visit (TreeVisitor.init (PUML_Generator.init "" none))
        (.FunctionDef "helper" ["self"] [])) :=
  ⟨(C10_function_bodies_skipped (TreeVisitor.init (PUML_Generator.init "" none))
      "helper" ["self"] [.ClassDef "Hidden" [] [], .Assign [.Name "x"]]).1 rfl,
   ((C10_function_bodies_skipped (TreeVisitor.init (PUML_Generator.init "" none))
      "helper" ["self"] [.ClassDef "Hidden" [] [], .Assign [.Name "x"]]).2
      (by decide)).1⟩

/-! ## Claim C6 -/

/-- **C6** (counterexample): a `def __init__` nested *inside* the constructor
is treated as a constructor again — its body's `self.y = ...` assignment
*does* register instance member `y`, and constructor mode is then off for the
rest of the outer constructor body, so the later `self.x = ...` registers
nothing: the record's members are `["y"]`, not `[]` (and not `["x"]`). -/
theorem C6_counterexample :
    ((visit (TreeVisitor.init (PUML_Generator.init "" none))
        (.ClassDef "C" []
          [.FunctionDef "__init__" ["self"]
            [.FunctionDef "__init__" ["self2"]
              [.Assign [.Attribute (.Name "self") "y"]],
             .Assign [.Attribute (.Name "self") "x"]]])).emitted.map
      (fun r => r.members)) = [["y"]] ∧
    (["y"] : List String) ≠ [] ∧ (["y"] : List String) ≠ ["x"] :=
  ⟨by decide, by decide, by decide⟩

/-- **C6** (amended): the constructor flag is never left raised once a
statement's traversal completes from a lowered state; a function definition
nested in the constructor that does not bear the constructor name does not
inherit constructor mode (its body is untraversed, it is merely registered as
a method, and the flag stays raised for its siblings); but a nested
definition bearing the name `__init__` is treated as a constructor itself
(its body is traversed in constructor mode) and leaves the flag lowered
afterwards. -/
theorem C6_amended_constructor_mode (v w u : TreeVisitor) (t : Stmt)
    (name : String) (args innerArgs : List String) (body innerBody : List Stmt)
    (ci ci' : ClassInfo)
    (hv : v.constructor = false) (hname : name ≠ "__init__")
    (_hw : w.constructor = true) (hwc : w.classinfo = some ci)
    (hu : u.classinfo = some ci') :
    (visit v t).constructor = false ∧
    visit w (.FunctionDef name args body) =
      { w with classinfo := some (ci.add_method name args) } ∧
    (visit u (.FunctionDef "__init__" innerArgs innerBody)).constructor = false := by
  refine ⟨visit_flag_all.1 v t hv, ?_, ?_⟩
  · simp [visit, hwc, hname]
  · simp [visit, hu]

/-- Witness for the amended C6 at concrete inputs. -/
theorem C6_amended_witness :
    (visit (TreeVisitor.init (PUML_Generator.init "" none))
      (.Assign [.Name "x"])).constructor = false ∧
    visit { TreeVisitor.init (PUML_Generator.init "" none) with
        classinfo := some (ClassInfo.init "C" []), constructor := true }
      (.FunctionDef "helper" ["self"] [.Assign [.Attribute (.Name "self") "z"]]) =
      { { TreeVisitor.init (PUML_Generator.init "" none) with
          classinfo := some (ClassInfo.init "C" []), constructor := true } with
        classinfo := some ((ClassInfo.init "C" []).add_method "helper" ["self"]) } ∧
    (visit { TreeVisitor.init (PUML_Generator.init "" none) with
        classinfo := some (ClassInfo.init "C" []), constructor := true }
      (.FunctionDef "__init__" ["self2"]
        [.Assign [.Attribute (.Name "self") "y"]])).constructor = false :=
  C6_amended_constructor_mode
    (TreeVisitor.init (PUML_Generator.init "" none))
    { TreeVisitor.init (PUML_Generator.init "" none) with
      classinfo := some (ClassInfo.init "C" []), constructor := true }
    { TreeVisitor.init (PUML_Generator.init "" none) with
      classinfo := some (ClassInfo.init "C" []), constructor := true }
    (.Assign [.Name "x"]) "helper" ["self"] ["self2"]
    [.Assign [.Attribute (.Name "self") "z"]]
    [.Assign [.Attribute (.Name "self") "y"]]
    (ClassInfo.init "C" []) (ClassInfo.init "C" [])
    rfl (by decide) rfl rfl rfl

/-! ## Claim C2 -/

/-- **C2** (confirmed): with a nested class definition anywhere in a class
body, the completed records are reported in body-completion order — the
trace gains the nested class's record (`innerRec`) strictly before the
enclosing class's record (`outerRec`, which comes last); both records carry
their own name and bases; and the enclosing record is exactly the record
obtained when the nested class definition is removed from the body
(`E₃`-run), i.e. the nested traversal does not affect the enclosing class's
`classVariables`, `instanceMembers` or `methods`.  The body pieces `b₁`,
`b₂` and `inBody` are arbitrary, so this covers arbitrary nesting depth. -/
theorem C2_nested_class_order (s : TreeVisitor) (hc : s.constructor = false)
    (outerName inName : String) (outerBases inBases : List Expr)
    (b₁ b₂ inBody : List Stmt) :
    ∃ (E₁ E₂ E₃ : List ClassInfo) (innerRec outerRec : ClassInfo),
      (visit s (.ClassDef outerName outerBases
          (b₁ ++ .ClassDef inName inBases inBody :: b₂))).emitted
        = s.emitted ++ E₁ ++ [innerRec] ++ E₂ ++ [outerRec] ∧
      innerRec.classname = inName ∧ innerRec.bases = inBases ∧
      outerRec.classname = outerName ∧ outerRec.bases = outerBases ∧
      (visit s (.ClassDef outerName outerBases (b₁ ++ b₂))).emitted
        = s.emitted ++ E₃ ++ [outerRec] := by
  -- state after entering the outer class
  set v1 : TreeVisitor := { s with classinfo := some (ClassInfo.init outerName outerBases) }
    with hv1
  have hv1f : v1.constructor = false := hc
  -- state after the first body segment
  set a : TreeVisitor := visitList v1 b₁ with ha
  have haf : a.constructor = false := visit_flag_all.2 v1 b₁ hv1f
  obtain ⟨ca, hca, hcaN, hcaB⟩ :
      ∃ ca, a.classinfo = some ca ∧ ca.classname = outerName ∧ ca.bases = outerBases :=
    visit_keeps_all.2 v1 b₁
  obtain ⟨d₁, hd₁⟩ := (visit_destExt_all.2 v1 b₁).2
  -- the nested class's own traversal
  obtain ⟨cInner, hcInner, hcInnerN, hcInnerB⟩ :
      ∃ c, (visitList { a with classinfo := some (ClassInfo.init inName inBases) }
        inBody).classinfo = some c ∧ c.classname = inName ∧ c.bases = inBases :=
    visit_keeps_all.2 { a with classinfo := some (ClassInfo.init inName inBases) } inBody
  obtain ⟨dInner, hdInner⟩ :=
    (visit_destExt_all.2 { a with classinfo := some (ClassInfo.init inName inBases) } inBody).2
  obtain ⟨hemInner, hclInner, _⟩ :=
    visit_ClassDef_emit a inName inBases inBody cInner hcInner
  -- state after the nested class definition
  set a' : TreeVisitor := visit a (.ClassDef inName inBases inBody) with ha'
  have ha'f : a'.constructor = false := visit_flag_all.1 a _ haf
  -- continuing with the second body segment, in the full run
  obtain ⟨cOuter, hcOuter, hcOuterN, hcOuterB⟩ :
      ∃ c, (visitList a' b₂).classinfo = some c ∧
        c.classname = ca.classname ∧ c.bases = ca.bases := by
    have := visit_keeps_all.2 a' b₂
    rw [hclInner, hca] at this
    exact this
  obtain ⟨d₂, hd₂⟩ := (visit_destExt_all.2 a' b₂).2
  -- the whole outer body, full run
  have hsplit : visitList v1 (b₁ ++ .ClassDef inName inBases inBody :: b₂)
      = visitList a' b₂ := by
    rw [visitList_append, ← ha]
    simp only [visitList]
  obtain ⟨hemOuter, _, _⟩ := visit_ClassDef_emit s outerName outerBases
    (b₁ ++ .ClassDef inName inBases inBody :: b₂) cOuter (by rw [← hv1, hsplit]; exact hcOuter)
  -- the removed run shares the state `a` and yields the same final record
  have hproj := visit_proj_all.2 a' b₂ a (by rw [hclInner]) (by rw [ha'f, haf])
  obtain ⟨cO₂, hcO₂, hcO₂N, hcO₂B⟩ :
      ∃ c, (visitList a b₂).classinfo = some c ∧
        c.classname = ca.classname ∧ c.bases = ca.bases := by
    have := visit_keeps_all.2 a b₂
    rw [hca] at this
    exact this
  have hsame : cO₂ = cOuter := by
    have := hproj.1
    rw [hcOuter, hcO₂] at this
    exact Option.some_inj.mp this
  obtain ⟨d₃, hd₃⟩ := (visit_destExt_all.2 a b₂).2
  have hsplit₂ : visitList v1 (b₁ ++ b₂) = visitList a b₂ := by
    rw [visitList_append, ← ha]
  obtain ⟨hemOuter₂, _, _⟩ := visit_ClassDef_emit s outerName outerBases
    (b₁ ++ b₂) cO₂ (by rw [← hv1, hsplit₂]; exact hcO₂)
  refine ⟨d₁ ++ dInner, d₂, d₁ ++ d₃, cInner, cOuter, ?_, hcInnerN, hcInnerB,
    hcaN ▸ hcOuterN, hcaB ▸ hcOuterB, ?_⟩
  · rw [hemOuter, hsplit, hd₂]
    rw [show a'.emitted = s.emitted ++ d₁ ++ dInner ++ [cInner] from by
      rw [ha', hemInner, hdInner]
      show a.emitted ++ dInner ++ [cInner] = s.emitted ++ d₁ ++ dInner ++ [cInner]
      rw [ha, hd₁, hv1]]
    simp [List.append_assoc]
  · rw [hemOuter₂, hsplit₂, hd₃, ha, hd₁, ← hsame]
    show (v1.emitted ++ d₁) ++ d₃ ++ [cO₂] = s.emitted ++ (d₁ ++ d₃) ++ [cO₂]
    rw [hv1]
    simp [List.append_assoc]

/-- Witness for C2 at the spec's concrete scenario: `class Outer:` containing
`class Inner: pass`. -/
theorem C2_witness :
    ∃ (E₁ E₂ E₃ : List ClassInfo) (innerRec outerRec : ClassInfo),
      (visit (TreeVisitor.init (PUML_Generator.init "" none))
          (.ClassDef "Outer" []
            ([] ++ .ClassDef "Inner" [] [.Other []] :: []))).emitted
        = (TreeVisitor.init (PUML_Generator.init "" none)).emitted
            ++ E₁ ++ [innerRec] ++ E₂ ++ [outerRec] ∧
      innerRec.classname = "Inner" ∧ innerRec.bases = [] ∧
      outerRec.classname = "Outer" ∧ outerRec.bases = [] ∧
      (visit (TreeVisitor.init (PUML_Generator.init "" none))
          (.ClassDef "Outer" [] ([] ++ []))).emitted
        = (TreeVisitor.init (PUML_Generator.init "" none)).emitted ++ E₃ ++ [outerRec] :=
  C2_nested_class_order (TreeVisitor.init (PUML_Generator.init "" none)) rfl
    "Outer" "Inner" [] [] [] [] [.Other []]

/-! ## Claim C1 -/

/-- The text chunk `indent` emits for a single logical line `text`:
indentation prefix (when namespaces are open), the text, a newline. -/
def lineChunk (g : PUML_Generator) (text : String) : String :=
  (if g.namespaces.isEmpty then "" else tabs g.depth) ++ text ++ "\n"

theorem indent_dest (g : PUML_Generator) (args : List String) :
    (g.indent args).dest = g.dest ++ [lineChunk g (joinSp args)] := rfl

theorem lineChunk_eq_of_ns {g g' : PUML_Generator} (h : g'.namespaces = g.namespaces)
    (t : String) : lineChunk g' t = lineChunk g t := by
  simp [lineChunk, PUML_Generator.depth, h]

theorem joinSp_inherit (x cn : String) : joinSp [x, "<|--", cn] = x ++ " <|-- " ++ cn := by
  apply String.ext
  simp [joinSp, String.data_append]

theorem joinSp_class_header (cn : String) :
    joinSp ["class", cn, "\x7b"] = "class " ++ cn ++ " \x7b" := by
  apply String.ext
  simp [joinSp, String.data_append]

/-- The inheritance-line loop of `print_classinfo`: one verbatim line per
base whose rendered source is not `'object'`, in declaration order. -/
theorem print_bases_dest (cn : String) (bs : List Expr) : ∀ g : PUML_Generator,
    ((bs.foldl (fun g base =>
        let expr := base.to_source
        if expr ≠ "object" then g.indent [expr, "<|--", cn] else g) g).dest
      = g.dest ++ (bs.filter (fun b => b.to_source ≠ "object")).map
          (fun b => lineChunk g (b.to_source ++ " <|-- " ++ cn))) ∧
    ((bs.foldl (fun g base =>
        let expr := base.to_source
        if expr ≠ "object" then g.indent [expr, "<|--", cn] else g) g).namespaces
      = g.namespaces) := by
  induction bs with
  | nil => intro g; simp
  | cons b bs ih =>
    intro g
    by_cases hb : b.to_source = "object"
    · have h1 : ¬ (b.to_source ≠ "object") := by simp [hb]
      simp only [List.foldl_cons]
      rw [if_neg h1, List.filter_cons_of_neg (by simpa using h1)]
      exact ih g
    · have h1 : b.to_source ≠ "object" := hb
      simp only [List.foldl_cons]
      rw [if_pos h1, List.filter_cons_of_pos (by simpa using h1), List.map_cons]
      obtain ⟨ihd, ihn⟩ := ih (g.indent [b.to_source, "<|--", cn])
      have hfun : (fun x : Expr => lineChunk (g.indent [b.to_source, "<|--", cn])
          (Expr.to_source x ++ " <|-- " ++ cn)) = (fun x : Expr => lineChunk g
          (Expr.to_source x ++ " <|-- " ++ cn)) := rfl
      rw [hfun] at ihd
      constructor
      · rw [ihd, indent_dest, joinSp_inherit]
        simp [List.append_assoc]
      · exact ihn

theorem class_block_tail_dest (g2 : PUML_Generator) (ci : ClassInfo) :
    ∃ d, ((ci.methods.foldl (fun g m =>
        g.indent [TAB ++ ClassInfo.visibility m.name ++ m.name ++ "(" ++ joinComma m.args ++ ")"])
      (ci.members.foldl (fun g m => g.indent [TAB ++ ClassInfo.visibility m ++ m])
        (ci.classvars.foldl (fun g m =>
          g.indent [TAB ++ "\x7bstatic\x7d", ClassInfo.visibility m ++ m]) g2))).indent
      ["\x7d\n"]).dest = g2.dest ++ d := by
  refine ((DestExt.dtrans ?_ (DestExt.indent _ _)).2.2.2.2)
  refine DestExt.dtrans ?_ (DestExt.foldl_indent _ (fun g a => DestExt.indent _ _) _ _)
  refine DestExt.dtrans ?_ (DestExt.foldl_indent _ (fun g a => DestExt.indent _ _) _ _)
  exact DestExt.foldl_indent _ (fun g a => DestExt.indent _ _) _ _

/-- **C1** (confirmed): for every record handed to the emitter, no
inheritance line is emitted for a base whose rendered source is the literal
`'object'`; every other base yields exactly one line
`<BaseExpr> <|-- <ClassName>` (at the current indentation), verbatim and in
declaration order, and these lines immediately precede the class's block
header `class <ClassName> {`. -/
theorem C1_inheritance_lines (g : PUML_Generator) (ci : ClassInfo) :
    ∃ rest : List String,
      (g.print_classinfo ci).dest =
        g.dest
        ++ (ci.bases.filter (fun b => b.to_source ≠ "object")).map
            (fun b => lineChunk g (b.to_source ++ " <|-- " ++ ci.classname))
        ++ lineChunk g ("class " ++ ci.classname ++ " \x7b") :: rest := by
  unfold PUML_Generator.print_classinfo
  obtain ⟨hd, hns⟩ := print_bases_dest ci.classname ci.bases g
  obtain ⟨d, hdrest⟩ := class_block_tail_dest ((ci.bases.foldl (fun g base =>
      let expr := base.to_source
      if expr ≠ "object" then g.indent [expr, "<|--", ci.classname] else g) g).indent
    ["class", ci.classname, "\x7b"]) ci
  refine ⟨d, ?_⟩
  simp only []
  rw [hdrest, indent_dest, hd, joinSp_class_header, lineChunk_eq_of_ns hns]
  simp [List.append_assoc]

/-! ## Namespace marker classification -/

theorem tabs_data (n : Nat) : (tabs n).data = List.replicate (2 * n) ' ' := by
  induction n with
  | zero => rfl
  | succ n ih =>
    show (TAB ++ tabs n).data = _
    rw [String.data_append, ih]
    show ' ' :: ' ' :: List.replicate (2 * n) ' ' = _
    rw [Nat.mul_succ, show 2 * n + 2 = (2 * n + 1) + 1 from rfl]
    simp [List.replicate_succ]

theorem dropWhile_replicate_space (k : Nat) : ∀ l : List Char,
    (List.replicate k ' ' ++ l).dropWhile (fun ch => ch == ' ') =
      l.dropWhile (fun ch => ch == ' ') := by
  induction k with
  | zero => intro l; simp
  | succ k ih =>
    intro l
    simp only [List.replicate_succ, List.cons_append, List.dropWhile_cons]
    simp [ih]

/-- A namespace-close marker: a line whose text ends in a single closing
brace (`pop_ns` output; a class block's closing line ends in a brace *and* a
blank line, so it does not match). -/
def isNsClose (c : String) : Bool := c.data.reverse.take 2 == ['\n', '\x7d']

/-- A namespace-open marker: after the indentation, the line starts with the
word `namespace` and ends with an opening brace (`push_ns` output; a class
header starts with `class`, so it does not match). -/
def isNsOpen (c : String) : Bool :=
  ((c.data.dropWhile (fun ch => ch == ' ')).take 10 == "namespace ".data)
    && (c.data.reverse.take 3 == ['\n', '\x7b', ' '])

theorem lineChunk_pre (g : PUML_Generator) :
    ∃ k, ((if g.namespaces.isEmpty then "" else tabs g.depth) : String).data
      = List.replicate k ' ' := by
  split
  · exact ⟨0, rfl⟩
  · exact ⟨2 * g.depth, tabs_data _⟩

theorem nsOpen_chunk_gen (pre nm : String) (h : ∃ k, pre.data = List.replicate k ' ') :
    isNsOpen (pre ++ ("namespace " ++ nm ++ " \x7b") ++ "\n") = true ∧
    isNsClose (pre ++ ("namespace " ++ nm ++ " \x7b") ++ "\n") = false := by
  obtain ⟨k, hk⟩ := h
  have hdata : (pre ++ ("namespace " ++ nm ++ " \x7b") ++ "\n").data
      = List.replicate k ' ' ++
        ('n':: 'a':: 'm':: 'e':: 's':: 'p':: 'a':: 'c':: 'e':: ' '::(nm.data ++ [' ', '\x7b', '\n'])) := by
    simp [String.data_append, hk, List.append_assoc]
  constructor
  · rw [isNsOpen, hdata, dropWhile_replicate_space, List.dropWhile_cons_of_neg (by decide)]
    rw [show (List.take 10
        ('n':: 'a':: 'm':: 'e':: 's':: 'p':: 'a':: 'c':: 'e':: ' '::(nm.data ++ [' ', '\x7b', '\n']))
        == "namespace ".data) = true from rfl, Bool.true_and]
    simp [List.reverse_append, List.append_assoc]
  · rw [isNsClose, hdata]
    simp [List.reverse_append, List.append_assoc]

theorem nsOpen_chunk (g : PUML_Generator) (nm : String) :
    isNsOpen (lineChunk g ("namespace " ++ nm ++ " \x7b")) = true ∧
    isNsClose (lineChunk g ("namespace " ++ nm ++ " \x7b")) = false :=
  nsOpen_chunk_gen (if g.namespaces.isEmpty then "" else tabs g.depth) nm (lineChunk_pre g)

theorem nsClose_chunk_gen (pre : String) (h : ∃ k, pre.data = List.replicate k ' ') :
    isNsClose (pre ++ "\x7d" ++ "\n") = true ∧ isNsOpen (pre ++ "\x7d" ++ "\n") = false := by
  obtain ⟨k, hk⟩ := h
  have hdata : (pre ++ "\x7d" ++ "\n").data = List.replicate k ' ' ++ ['\x7d', '\n'] := by
    simp [String.data_append, hk]
  constructor
  · rw [isNsClose, hdata]
    simp [List.reverse_append]
  · rw [isNsOpen, hdata, dropWhile_replicate_space]
    simp

theorem nsClose_chunk (g : PUML_Generator) :
    isNsClose (lineChunk g "\x7d") = true ∧ isNsOpen (lineChunk g "\x7d") = false :=
  nsClose_chunk_gen (if g.namespaces.isEmpty then "" else tabs g.depth) (lineChunk_pre g)

/-! ## Namespace resolver lemmas -/

theorem commonLen_le_left : ∀ a b : List String, commonLen a b ≤ a.length := by
  intro a
  induction a with
  | nil => intro b; simp [commonLen]
  | cons x xs ih =>
    intro b
    cases b with
    | nil => simp [commonLen]
    | cons y ys =>
      simp only [commonLen]
      split
      · simpa using ih ys
      · simp

theorem commonLen_le_right : ∀ a b : List String, commonLen a b ≤ b.length := by
  intro a
  induction a with
  | nil => intro b; simp [commonLen]
  | cons x xs ih =>
    intro b
    cases b with
    | nil => simp [commonLen]
    | cons y ys =>
      simp only [commonLen]
      split
      · simpa using ih ys
      · simp

theorem commonLen_take : ∀ a b : List String,
    a.take (commonLen a b) = b.take (commonLen a b) := by
  intro a
  induction a with
  | nil => intro b; simp [commonLen]
  | cons x xs ih =>
    intro b
    cases b with
    | nil => simp [commonLen]
    | cons y ys =>
      simp only [commonLen]
      split
      case isTrue h => simp [List.take_succ_cons, h, ih ys]
      case isFalse h => simp

theorem pop_once_spec (g : PUML_Generator) :
    g.pop_once.namespaces = g.namespaces.dropLast ∧
    g.pop_once.dest = g.dest ++
      [lineChunk { g with namespaces := g.namespaces.dropLast } "\x7d"] ∧
    g.pop_once.root = g.root ∧ g.pop_once.config = g.config ∧
    g.pop_once.sourcename = g.sourcename :=
  ⟨rfl, rfl, rfl, rfl, rfl⟩

theorem pop_ns_spec (k : Nat) : ∀ g : PUML_Generator,
    (g.pop_ns k).namespaces = g.namespaces.take (g.namespaces.length - k) ∧
    (g.pop_ns k).root = g.root ∧ (g.pop_ns k).config = g.config ∧
    (g.pop_ns k).sourcename = g.sourcename ∧
    ∃ d : List String, (g.pop_ns k).dest = g.dest ++ d ∧ d.length = k ∧
      ∀ c ∈ d, isNsClose c = true ∧ isNsOpen c = false := by
  induction k with
  | zero =>
    intro g
    refine ⟨by simp [PUML_Generator.pop_ns], rfl, rfl, rfl, [], by simp [PUML_Generator.pop_ns]⟩
  | succ k ih =>
    intro g
    obtain ⟨hns, hroot, hcfg, hsrc, d, hd, hlen, hcls⟩ := ih g.pop_once
    have hponce := pop_once_spec g
    refine ⟨?_, hroot, hcfg, hsrc,
      lineChunk { g with namespaces := g.namespaces.dropLast } "\x7d" :: d, ?_, by simp [hlen], ?_⟩
    · show (g.pop_once.pop_ns k).namespaces = _
      rw [hns, hponce.1, List.length_dropLast, List.dropLast_eq_take, List.take_take]
      congr 1
      omega
    · show (g.pop_once.pop_ns k).dest = _
      rw [hd, hponce.2.1]
      simp
    · intro c hc
      rcases List.mem_cons.mp hc with h | h
      · subst h
        exact ⟨(nsClose_chunk _).1, (nsClose_chunk _).2⟩
      · exact hcls c h

theorem push_foldl_spec (names : List String) : ∀ g : PUML_Generator,
    (names.foldl PUML_Generator.push_ns g).namespaces = g.namespaces ++ names ∧
    (names.foldl PUML_Generator.push_ns g).root = g.root ∧
    (names.foldl PUML_Generator.push_ns g).config = g.config ∧
    (names.foldl PUML_Generator.push_ns g).sourcename = g.sourcename ∧
    ∃ d : List String, (names.foldl PUML_Generator.push_ns g).dest = g.dest ++ d ∧
      d.length = names.length ∧
      ∀ c ∈ d, isNsOpen c = true ∧ isNsClose c = false := by
  induction names with
  | nil => intro g; exact ⟨by simp, rfl, rfl, rfl, [], by simp⟩
  | cons nm names ih =>
    intro g
    obtain ⟨hns, hroot, hcfg, hsrc, d, hd, hlen, hop⟩ := ih (g.push_ns nm)
    refine ⟨?_, hroot, hcfg, hsrc,
      lineChunk g ("namespace " ++ nm ++ " \x7b") :: d, ?_, by simp [hlen], ?_⟩
    · rw [List.foldl_cons, hns]
      show (g.namespaces ++ [nm]) ++ names = _
      simp
    · rw [List.foldl_cons, hd]
      show (g.dest ++ [lineChunk g ("namespace " ++ nm ++ " \x7b")]) ++ d = _
      simp
    · intro c hc
      rcases List.mem_cons.mp hc with h | h
      · subst h
        exact ⟨(nsOpen_chunk _ _).1, (nsOpen_chunk _ _).2⟩
      · exact hop c h

/-- Full characterization of a `start_file` transition when a root directory
is in use: the stack becomes exactly the file's namespace segments, after
emitting one close marker per stale namespace and one open marker per newly
entered namespace. -/
theorem start_file_spec (g : PUML_Generator) (p : String) (hroot : ¬ g.root = "") :
    (g.start_file p).namespaces = pathToNamespaces g.root p ∧
    (g.start_file p).root = g.root ∧ (g.start_file p).config = g.config ∧
    ∃ dcl dop : List String,
      (g.start_file p).dest = g.dest ++ dcl ++ dop ∧
      dcl.length = g.namespaces.length - commonLen g.namespaces (pathToNamespaces g.root p) ∧
      dop.length = (pathToNamespaces g.root p).length
        - commonLen g.namespaces (pathToNamespaces g.root p) ∧
      (∀ c ∈ dcl, isNsClose c = true ∧ isNsOpen c = false) ∧
      (∀ c ∈ dop, isNsOpen c = true ∧ isNsClose c = false) := by
  unfold PUML_Generator.start_file
  rw [if_neg hroot]
  obtain ⟨pns, proot, pcfg, psrc, dcl, pdest, plen, pcls⟩ :=
    pop_ns_spec (g.namespaces.length - commonLen g.namespaces (pathToNamespaces g.root p))
      { g with sourcename := some p }
  obtain ⟨qns, qroot, qcfg, qsrc, dop, qdest, qlen, qop⟩ :=
    push_foldl_spec ((pathToNamespaces g.root p).drop
      (commonLen g.namespaces (pathToNamespaces g.root p)))
      ({ g with sourcename := some p }.pop_ns
        (g.namespaces.length - commonLen g.namespaces (pathToNamespaces g.root p)))
  have hn : commonLen g.namespaces (pathToNamespaces g.root p) ≤ g.namespaces.length :=
    commonLen_le_left _ _
  refine ⟨?_, ?_, ?_, dcl, dop, ?_, plen, by rw [qlen, List.length_drop], pcls, qop⟩
  · rw [qns, pns]
    show g.namespaces.take (g.namespaces.length
      - (g.namespaces.length - commonLen g.namespaces (pathToNamespaces g.root p))) ++ _ = _
    rw [show g.namespaces.length - (g.namespaces.length
        - commonLen g.namespaces (pathToNamespaces g.root p))
      = commonLen g.namespaces (pathToNamespaces g.root p) from by omega]
    rw [commonLen_take]
    exact List.take_append_drop _ _
  · rw [qroot, proot]
  · rw [qcfg, pcfg]
  · rw [qdest, pdest]

/-! ## Claim C3 -/

/-- **C3** (counterexample): after processing `a/b/X.py` under root `a`, the
namespace stack is `[b, X]` — the module stem `X` is itself a namespace and
`a` (the root) is never on the stack.  The transition to `a/c/Y.py` therefore
closes *two* namespaces (`X` then `b`), not one. -/
theorem C3_counterexample :
    (((PUML_Generator.init "a" none).start_file "a/b/X.py").namespaces = ["b", "X"]) ∧
    ((((PUML_Generator.init "a" none).start_file "a/b/X.py").start_file "a/c/Y.py").dest.drop
        ((PUML_Generator.init "a" none).start_file "a/b/X.py").dest.length).countP isNsClose
      = 2 ∧
    (2 : Nat) ≠ 1 :=
  ⟨by decide, by decide, by decide⟩

/-- **C3** (amended): a `start_file` transition under a root closes exactly
`previous depth − n` namespaces and opens exactly `target length − n`, where
`n` is the longest common prefix length of the previous stack and the new
file's segment sequence (module stem included), and the resulting stack is
exactly that segment sequence.  For `a/b/X.py` then `a/c/Y.py` under root
`a` this closes two namespaces (`X`, `b`) and opens two (`c`, `Y`). -/
theorem C3_amended_namespace_transition (g : PUML_Generator) (p : String)
    (hroot : ¬ g.root = "") :
    (g.start_file p).namespaces = pathToNamespaces g.root p ∧
    ((g.start_file p).dest.drop g.dest.length).countP isNsClose
      = g.namespaces.length - commonLen g.namespaces (pathToNamespaces g.root p) ∧
    ((g.start_file p).dest.drop g.dest.length).countP isNsOpen
      = (pathToNamespaces g.root p).length
        - commonLen g.namespaces (pathToNamespaces g.root p) := by
  obtain ⟨hns, hroot', hcfg, dcl, dop, hdest, hlcl, hlop, hcl, hop⟩ := start_file_spec g p hroot
  have hdrop : (g.start_file p).dest.drop g.dest.length = dcl ++ dop := by
    rw [hdest, List.append_assoc, List.drop_left]
  refine ⟨hns, ?_, ?_⟩
  · rw [hdrop, List.countP_append]
    rw [show dcl.countP isNsClose = dcl.length from
      List.countP_eq_length.mpr (fun c hc => (hcl c hc).1)]
    rw [show dop.countP isNsClose = 0 from
      List.countP_eq_zero.mpr (fun c hc => by simp [(hop c hc).2])]
    omega
  · rw [hdrop, List.countP_append]
    rw [show dop.countP isNsOpen = dop.length from
      List.countP_eq_length.mpr (fun c hc => (hop c hc).1)]
    rw [show dcl.countP isNsOpen = 0 from
      List.countP_eq_zero.mpr (fun c hc => by simp [(hcl c hc).2])]
    omega

/-- Witness for the amended C3 at the spec's scenario: the second transition
`a/b/X.py` → `a/c/Y.py` under root `a`. -/
theorem C3_amended_witness :
    ((((PUML_Generator.init "a" none).start_file "a/b/X.py").start_file "a/c/Y.py").namespaces
      = pathToNamespaces ((PUML_Generator.init "a" none).start_file "a/b/X.py").root
        "a/c/Y.py") ∧
    (((((PUML_Generator.init "a" none).start_file "a/b/X.py").start_file "a/c/Y.py").dest.drop
        ((PUML_Generator.init "a" none).start_file "a/b/X.py").dest.length).countP isNsClose
      = ((PUML_Generator.init "a" none).start_file "a/b/X.py").namespaces.length
        - commonLen ((PUML_Generator.init "a" none).start_file "a/b/X.py").namespaces
          (pathToNamespaces ((PUML_Generator.init "a" none).start_file "a/b/X.py").root
            "a/c/Y.py")) ∧
    (((((PUML_Generator.init "a" none).start_file "a/b/X.py").start_file "a/c/Y.py").dest.drop
        ((PUML_Generator.init "a" none).start_file "a/b/X.py").dest.length).countP isNsOpen
      = (pathToNamespaces ((PUML_Generator.init "a" none).start_file "a/b/X.py").root
          "a/c/Y.py").length
        - commonLen ((PUML_Generator.init "a" none).start_file "a/b/X.py").namespaces
          (pathToNamespaces ((PUML_Generator.init "a" none).start_file "a/b/X.py").root
            "a/c/Y.py")) :=
  C3_amended_namespace_transition ((PUML_Generator.init "a" none).start_file "a/b/X.py")
    "a/c/Y.py" (by decide)

/-! ## Claim C8 -/

/-- The spec's Dog/Animal scenario as a parsed module: `class Animal: pass`,
then `class Dog(Animal)` with class variable `species`, a constructor
assigning `self.name` and `self.age`, and a method `bark(self)`. -/
def dogModule : List Stmt :=
  [ .ClassDef "Animal" [] [.Other []],
    .ClassDef "Dog" [.Name "Animal"]
      [ .Assign [.Name "species"],
        .FunctionDef "__init__" ["self", "name", "age"]
          [ .Assign [.Attribute (.Name "self") "name"],
            .Assign [.Attribute (.Name "self") "age"] ],
        .FunctionDef "bark" ["self"] [.Other []] ] ]

/-- Substring test on character lists. -/
def containsSub (pat : List Char) (l : List Char) : Bool :=
  l.tails.any (fun t => pat.isPrefixOf t)

/-- **C8** (counterexample): the Dog scenario's output contains no line
`+bark()` anywhere — the method line renders the parameter list, giving
`+bark(self)`. -/
theorem C8_counterexample :
    ((run "" none [("dog.py", dogModule)]).context.dest.all
      (fun c => ! containsSub "+bark()".data c.data)) = true ∧
    ((run "" none [("dog.py", dogModule)]).context.dest.any
      (fun c => containsSub "+bark(self)".data c.data)) = true :=
  ⟨by decide, by decide⟩

/-- **C8** (amended): the Dog scenario produces exactly the inheritance line
`Animal <|-- Dog`, a `Dog` block with the single static member `species`,
the two public instance members `name` and `age`, the constructor line
`-__init__(self, name, age)` and the method line `+bark(self)` — and
processing `Animal`, whose base list is empty, emits a plain block with no
inheritance line and no crash. -/
theorem C8_amended_dog_scenario :
    (run "" none [("dog.py", dogModule)]).context.dest =
      ["@startuml\n",
       "class Animal \x7b\n",
       "\x7d\n\n",
       "Animal <|-- Dog\n",
       "class Dog \x7b\n",
       "  \x7bstatic\x7d +species\n",
       "  +name\n",
       "  +age\n",
       "  -__init__(self, name, age)\n",
       "  +bark(self)\n",
       "\x7d\n\n",
       "@enduml\n"] := by decide

/-! ## Claim C9 -/

/-- One-based position data of a Python `SyntaxError` (`see.lineno`,
`see.offset`, `see.text`). -/
structure SyntaxErrorInfo where
  lineno : Nat
  offset : Nat
  text : String

/-- Python attribute lookup `cl_args.py_file.name`: `py_file` is declared
with `nargs='+'`, so it is a *list* of strings, and a list object has no
attribute `name` — the lookup raises `AttributeError` for every value. -/
def pyFileAttrName (_pyFile : List String) : Except String String :=
  Except.error "AttributeError: list object has no attribute name"

/-- The `except SyntaxError` handler of `__main__` (lines 324-327): it first
prints `'Syntax error in '`, then builds the rest of the message from
`cl_args.py_file.name`, `see.lineno`, `see.offset` and `see.text`.  The
result is the emitted report on success, or the exception that escapes the
handler. -/
def syntaxErrorHandler (pyFile : List String) (see : SyntaxErrorInfo) :
    Except String (List String) :=
  let out : List String := ["Syntax error in "]
  match pyFileAttrName pyFile with
  | .error e => .error e
  | .ok nm => .ok (out ++
      [nm ++ ":" ++ toString see.lineno ++ ":" ++ toString see.offset ++ ": " ++ see.text])

/-- **C9** (code_bug): on an unparsable input file the run does abort, but
the report required by the claim is never produced: the handler evaluates
`cl_args.py_file.name` where `py_file` is the argument *list*, so an
`AttributeError` escapes before the file path, line or column can be
printed.  Only the bare prefix `'Syntax error in '` reaches the output. -/
theorem C9_syntax_error_report_crashes (pyFile : List String) (see : SyntaxErrorInfo) :
    syntaxErrorHandler pyFile see
      = Except.error "AttributeError: list object has no attribute name" := rfl

/-! ## Claim C4 : neutral chunks -/

theorem lineChunk_pre' (g : PUML_Generator) :
    ∃ k, ((if g.namespaces = [] then "" else tabs g.depth) : String).data
      = List.replicate k ' ' := by
  split
  · exact ⟨0, rfl⟩
  · exact ⟨2 * g.depth, tabs_data _⟩

/-- A chunk that is neither a namespace-open nor a namespace-close marker. -/
def neutralChunk (c : String) : Bool := !isNsOpen c && !isNsClose c

/-- Identifier well-formedness: no brace characters (true of every Python
identifier; braces cannot occur in `ast` names). -/
def cleanName (s : String) : Bool := s.data.all (fun ch => ch != '\x7b' && ch != '\x7d')

theorem cleanName_last {m : String} {c : Char} {rest : List Char}
    (h : cleanName m = true) (hm : m.data.reverse = c :: rest) :
    c ≠ '\x7b' ∧ c ≠ '\x7d' := by
  have hc : c ∈ m.data := by
    rw [← List.mem_reverse, hm]; exact List.mem_cons_self c rest
  have := (List.all_eq_true.mp h) c hc
  simp only [Bool.and_eq_true, bne_iff_ne, ne_eq] at this
  exact this

theorem neutral_header (g : PUML_Generator) :
    neutralChunk (lineChunk g "@startuml") = true := by
  obtain ⟨k, hk⟩ := lineChunk_pre' g
  have hdata : (lineChunk g "@startuml").data
      = List.replicate k ' ' ++ ['@','s','t','a','r','t','u','m','l','\n'] := by
    simp [lineChunk, String.data_append, hk]
  simp only [neutralChunk, isNsOpen, isNsClose, hdata, dropWhile_replicate_space]
  simp [List.reverse_append]

theorem neutral_enduml (g : PUML_Generator) :
    neutralChunk (lineChunk g "@enduml") = true := by
  obtain ⟨k, hk⟩ := lineChunk_pre' g
  have hdata : (lineChunk g "@enduml").data
      = List.replicate k ' ' ++ ['@','e','n','d','u','m','l','\n'] := by
    simp [lineChunk, String.data_append, hk]
  simp only [neutralChunk, isNsOpen, isNsClose, hdata, dropWhile_replicate_space]
  simp [List.reverse_append]

theorem neutral_class_header (g : PUML_Generator) (cn : String) :
    neutralChunk (lineChunk g (joinSp ["class", cn, "\x7b"])) = true := by
  obtain ⟨k, hk⟩ := lineChunk_pre' g
  have hdata : (lineChunk g (joinSp ["class", cn, "\x7b"])).data
      = List.replicate k ' ' ++
        ('c':: 'l':: 'a':: 's':: 's':: ' '::(cn.data ++ [' ', '\x7b', '\n'])) := by
    simp [lineChunk, joinSp, String.data_append, hk, List.append_assoc]
  simp only [neutralChunk, isNsOpen, isNsClose, hdata, dropWhile_replicate_space]
  simp [List.reverse_append, List.append_assoc]

theorem neutral_class_close (g : PUML_Generator) :
    neutralChunk (lineChunk g "\x7d\n") = true := by
  obtain ⟨k, hk⟩ := lineChunk_pre' g
  have hdata : (lineChunk g "\x7d\n").data
      = List.replicate k ' ' ++ ['\x7d', '\n', '\n'] := by
    simp [lineChunk, String.data_append, hk]
  simp only [neutralChunk, isNsOpen, isNsClose, hdata, dropWhile_replicate_space]
  simp [List.reverse_append]

theorem neutral_base_line (g : PUML_Generator) (b cn : String)
    (hcn : cleanName cn = true) :
    neutralChunk (lineChunk g (joinSp [b, "<|--", cn])) = true := by
  obtain ⟨k, hk⟩ := lineChunk_pre' g
  have hdata : (lineChunk g (joinSp [b, "<|--", cn])).data
      = List.replicate k ' ' ++ (b.data ++ ([' ','<','|','-','-',' '] ++ (cn.data ++ ['\n']))) := by
    simp [lineChunk, joinSp, String.data_append, hk, List.append_assoc]
  simp only [neutralChunk, isNsOpen, isNsClose, hdata]
  rcases hrev : cn.data.reverse with _ | ⟨c0, rest⟩
  · have : cn.data = [] := by simpa using congrArg List.reverse hrev
    simp [this, List.reverse_append]
  · obtain ⟨hne1, hne2⟩ := cleanName_last hcn hrev
    simp [List.reverse_append, hrev, hne1, hne2]

theorem visibility_data (m : String) :
    ∃ vc : Char, (ClassInfo.visibility m).data = [vc] ∧
      vc ≠ 'n' ∧ vc ≠ ' ' ∧ vc ≠ '\x7b' ∧ vc ≠ '\x7d' := by
  unfold ClassInfo.visibility
  split
  · exact ⟨'-', rfl, by decide, by decide, by decide, by decide⟩
  · exact ⟨'+', rfl, by decide, by decide, by decide, by decide⟩

theorem neutral_classvar_line (g : PUML_Generator) (m : String)
    (hm : cleanName m = true) :
    neutralChunk (lineChunk g
      (joinSp [TAB ++ "\x7bstatic\x7d", ClassInfo.visibility m ++ m])) = true := by
  obtain ⟨k, hk⟩ := lineChunk_pre' g
  obtain ⟨vc, hvc, h1, h2, h3, h4⟩ := visibility_data m
  have hdata : (lineChunk g
      (joinSp [TAB ++ "\x7bstatic\x7d", ClassInfo.visibility m ++ m])).data
      = List.replicate k ' ' ++
        (' ':: ' ':: '\x7b':: 's':: 't':: 'a':: 't':: 'i':: 'c':: '\x7d':: ' '::vc::
          (m.data ++ ['\n'])) := by
    simp [lineChunk, joinSp, String.data_append, hk, List.append_assoc, TAB, hvc]
  simp only [neutralChunk, isNsOpen, isNsClose, hdata, dropWhile_replicate_space]
  rcases hrev : m.data.reverse with _ | ⟨c0, rest⟩
  · have : m.data = [] := by simpa using congrArg List.reverse hrev
    simp [this, List.reverse_append, h4]
  · obtain ⟨hne1, hne2⟩ := cleanName_last hm hrev
    simp [List.reverse_append, hrev, hne1, hne2]

theorem neutral_member_line (g : PUML_Generator) (m : String)
    (hm : cleanName m = true) :
    neutralChunk (lineChunk g (TAB ++ ClassInfo.visibility m ++ m)) = true := by
  obtain ⟨k, hk⟩ := lineChunk_pre' g
  obtain ⟨vc, hvc, h1, h2, h3, h4⟩ := visibility_data m
  have hdata : (lineChunk g (TAB ++ ClassInfo.visibility m ++ m)).data
      = List.replicate k ' ' ++ (' ':: ' '::vc::(m.data ++ ['\n'])) := by
    simp [lineChunk, String.data_append, hk, List.append_assoc, TAB, hvc]
  simp only [neutralChunk, isNsOpen, isNsClose, hdata, dropWhile_replicate_space]
  have hstop : (' ':: ' '::vc::(m.data ++ ['\n'])).dropWhile (fun ch => ch == ' ')
      = vc :: (m.data ++ ['\n']) := by
    simp [List.dropWhile_cons, h2]
  rcases hrev : m.data.reverse with _ | ⟨c0, rest⟩
  · have : m.data = [] := by simpa using congrArg List.reverse hrev
    simp [this, List.reverse_append, h1, h2, h4, List.dropWhile_cons]
  · obtain ⟨hne1, hne2⟩ := cleanName_last hm hrev
    simp [List.reverse_append, hrev, hne1, hne2, h1, h2, List.dropWhile_cons]

theorem neutral_method_line (g : PUML_Generator) (name : String) (args : List String) :
    neutralChunk (lineChunk g
      (TAB ++ ClassInfo.visibility name ++ name ++ "(" ++ joinComma args ++ ")")) = true := by
  obtain ⟨k, hk⟩ := lineChunk_pre' g
  obtain ⟨vc, hvc, h1, h2, h3, h4⟩ := visibility_data name
  have hdata : (lineChunk g
      (TAB ++ ClassInfo.visibility name ++ name ++ "(" ++ joinComma args ++ ")")).data
      = List.replicate k ' ' ++
        (' ':: ' '::vc::(name.data ++ ('('::((joinComma args).data ++ [')', '\n'])))) := by
    simp [lineChunk, String.data_append, hk, List.append_assoc, TAB, hvc]
  simp only [neutralChunk, isNsOpen, isNsClose, hdata, dropWhile_replicate_space]
  simp [List.reverse_append, List.append_assoc, h1, h2, List.dropWhile_cons]

/-- Well-formedness of assignment targets: any name that can be registered
(a plain name's id, an attribute's attr) is brace-free. -/
def cleanTarget : Expr → Bool
  | .Name id => cleanName id
  | .Attribute _ attr => cleanName attr
  | .Other _ => true

mutual
/-- Well-formedness of a statement: every identifier that can reach a
`ClassRecord` (class names, assignment targets) is brace-free, as is true of
all parsed Python code. -/
def cleanStmt : Stmt → Bool
  | .ClassDef n _ body => cleanName n && cleanStmts body
  | .FunctionDef _ _ body => cleanStmts body
  | .Assign ts => ts.all cleanTarget
  | .Other children => cleanStmts children

def cleanStmts : List Stmt → Bool
  | [] => true
  | t :: ts => cleanStmt t && cleanStmts ts
end

/-- Well-formedness of an in-progress record. -/
def cleanCI : Option ClassInfo → Bool
  | none => true
  | some ci => cleanName ci.classname && ci.classvars.all cleanName && ci.members.all cleanName

/-- `g'` extends `g` by appending only neutral chunks. -/
def NeutralExt (g g' : PUML_Generator) : Prop :=
  ∃ d, g'.dest = g.dest ++ d ∧ ∀ c ∈ d, neutralChunk c = true

theorem NeutralExt.nrefl (g : PUML_Generator) : NeutralExt g g := ⟨[], by simp⟩

theorem NeutralExt.ntrans {g₁ g₂ g₃ : PUML_Generator}
    (h₁ : NeutralExt g₁ g₂) (h₂ : NeutralExt g₂ g₃) : NeutralExt g₁ g₃ := by
  obtain ⟨d₁, hd₁, hn₁⟩ := h₁
  obtain ⟨d₂, hd₂, hn₂⟩ := h₂
  refine ⟨d₁ ++ d₂, by rw [hd₂, hd₁, List.append_assoc], ?_⟩
  intro c hc
  rcases List.mem_append.mp hc with h | h
  · exact hn₁ c h
  · exact hn₂ c h

theorem NeutralExt.indent_one (g : PUML_Generator) (args : List String)
    (h : neutralChunk (lineChunk g (joinSp args)) = true) :
    NeutralExt g (g.indent args) := by
  refine ⟨[lineChunk g (joinSp args)], indent_dest g args, ?_⟩
  intro c hc
  rw [List.mem_singleton] at hc
  subst hc
  exact h

theorem NeutralExt.foldl {α : Type} (mk : PUML_Generator → α → PUML_Generator) :
    ∀ (l : List α) (g : PUML_Generator),
    (∀ (g' : PUML_Generator) (a : α), a ∈ l → NeutralExt g' (mk g' a)) →
    NeutralExt g (l.foldl mk g) := by
  intro l
  induction l with
  | nil => intro g _; exact NeutralExt.nrefl g
  | cons a l ih =>
    intro g hmk
    exact NeutralExt.ntrans (hmk g a (List.mem_cons_self a l))
      (ih (mk g a) (fun g' a' ha' => hmk g' a' (List.mem_cons_of_mem a ha')))

/-- Every chunk `print_classinfo` emits for a well-formed record is neutral:
class blocks contribute no namespace open/close markers. -/
theorem print_classinfo_neutral (g : PUML_Generator) (ci : ClassInfo)
    (h : cleanCI (some ci) = true) : NeutralExt g (g.print_classinfo ci) := by
  obtain ⟨⟨hcn, hcv⟩, hmem⟩ : (cleanName ci.classname = true ∧
      ∀ x ∈ ci.classvars, cleanName x = true) ∧
      ∀ x ∈ ci.members, cleanName x = true := by
    simpa [cleanCI, Bool.and_eq_true] using h
  unfold PUML_Generator.print_classinfo
  refine NeutralExt.ntrans ?_ (NeutralExt.indent_one _ _ (neutral_class_close _))
  refine NeutralExt.ntrans ?_ (NeutralExt.foldl _ _ _
    (fun g' m _ => NeutralExt.indent_one _ _ (neutral_method_line g' m.name m.args)))
  refine NeutralExt.ntrans ?_ (NeutralExt.foldl _ _ _
    (fun g' m hm => NeutralExt.indent_one _ _
      (neutral_member_line g' m (hmem m hm))))
  refine NeutralExt.ntrans ?_ (NeutralExt.foldl _ _ _
    (fun g' m hm => NeutralExt.indent_one _ _
      (neutral_classvar_line g' m (hcv m hm))))
  refine NeutralExt.ntrans ?_ (NeutralExt.indent_one _ _ (neutral_class_header _ ci.classname))
  refine NeutralExt.foldl _ _ _ (fun g' b _ => ?_)
  dsimp only
  split
  · exact NeutralExt.indent_one _ _ (neutral_base_line g' b.to_source ci.classname hcn)
  · exact NeutralExt.nrefl _

theorem cleanCI_add_member {ci : ClassInfo} {attr : String}
    (h : cleanCI (some ci) = true) (ha : cleanName attr = true) :
    cleanCI (some (ci.add_member attr)) = true := by
  unfold ClassInfo.add_member
  split
  · exact h
  · simp only [cleanCI, Bool.and_eq_true, List.all_eq_true] at h ⊢
    refine ⟨⟨h.1.1, h.1.2⟩, ?_⟩
    intro x hx
    rcases List.mem_append.mp hx with hx | hx
    · exact h.2 x hx
    · rw [List.mem_singleton] at hx; subst hx; exact ha

theorem cleanCI_add_classvar {ci : ClassInfo} {id : String}
    (h : cleanCI (some ci) = true) (ha : cleanName id = true) :
    cleanCI (some (ci.add_classvar id)) = true := by
  simp only [ClassInfo.add_classvar, cleanCI, Bool.and_eq_true, List.all_eq_true] at h ⊢
  refine ⟨⟨h.1.1, ?_⟩, h.2⟩
  intro x hx
  rcases List.mem_append.mp hx with hx | hx
  · exact h.1.2 x hx
  · rw [List.mem_singleton] at hx; subst hx; exact ha

theorem cleanCI_map_add_method (o : Option ClassInfo) (n : String) (a : List String)
    (h : cleanCI o = true) : cleanCI (o.map (fun ci => ci.add_method n a)) = true := by
  cases o with
  | none => exact h
  | some ci => exact h

theorem cleanCI_assignMembers (targets : List Expr) : ∀ o : Option ClassInfo,
    cleanCI o = true → targets.all cleanTarget = true →
    cleanCI (assignMembers o targets) = true := by
  induction targets with
  | nil => intro o h _; exact h
  | cons t ts ih =>
    intro o h hts
    rw [List.all_cons, Bool.and_eq_true] at hts
    simp only [assignMembers, List.foldl_cons]
    refine ih _ ?_ hts.2
    match t, hts.1 with
    | .Name id, _ => exact h
    | .Other src, _ => exact h
    | .Attribute (.Name id) attr, ht =>
      dsimp only
      split
      · cases o with
        | none => exact h
        | some ci => exact cleanCI_add_member h ht
      · exact h
    | .Attribute (.Attribute v a) attr, _ => exact h
    | .Attribute (.Other src) attr, _ => exact h

theorem cleanCI_assignClassvars (targets : List Expr) : ∀ o : Option ClassInfo,
    cleanCI o = true → targets.all cleanTarget = true →
    cleanCI (assignClassvars o targets) = true := by
  induction targets with
  | nil => intro o h _; exact h
  | cons t ts ih =>
    intro o h hts
    rw [List.all_cons, Bool.and_eq_true] at hts
    simp only [assignClassvars, List.foldl_cons]
    refine ih _ ?_ hts.2
    match t, hts.1 with
    | .Name id, ht =>
      cases o with
      | none => exact h
      | some ci => exact cleanCI_add_classvar h ht
    | .Other src, _ => exact h
    | .Attribute v attr, _ => exact h

/-- Master invariant for C4: over well-formed trees, the traversal appends
only neutral chunks to the output (class blocks never produce namespace
markers), and the in-progress record stays well-formed. -/
theorem visit_neutral_all :
    (∀ (v : TreeVisitor) (t : Stmt), cleanStmt t = true → cleanCI v.classinfo = true →
      NeutralExt v.context (visit v t).context ∧ cleanCI (visit v t).classinfo = true) ∧
    (∀ (v : TreeVisitor) (l : List Stmt), cleanStmts l = true → cleanCI v.classinfo = true →
      NeutralExt v.context (visitList v l).context ∧ cleanCI (visitList v l).classinfo = true) := by
  apply visit.mutual_induct
    (fun v t => cleanStmt t = true → cleanCI v.classinfo = true →
      NeutralExt v.context (visit v t).context ∧ cleanCI (visit v t).classinfo = true)
    (fun v l => cleanStmts l = true → cleanCI v.classinfo = true →
      NeutralExt v.context (visitList v l).context ∧ cleanCI (visitList v l).classinfo = true)
  case case1 =>
    intro v name bases body v1 v2 ci hci ih hclean hcC
    rw [cleanStmt, Bool.and_eq_true] at hclean
    have hc1 : cleanCI (some (ClassInfo.init name bases)) = true := by
      simp [cleanCI, ClassInfo.init, hclean.1]
    obtain ⟨hext, hcl⟩ := ih hclean.2 hc1
    have hciv : (visitList { v with classinfo := some (ClassInfo.init name bases) }
        body).classinfo = some ci := hci
    rw [hciv] at hcl
    simp only [visit, hciv]
    exact ⟨hext.ntrans (print_classinfo_neutral _ ci hcl), hcC⟩
  case case2 =>
    intro v name bases body v1 v2 hci ih hclean hcC
    rw [cleanStmt, Bool.and_eq_true] at hclean
    have hc1 : cleanCI (some (ClassInfo.init name bases)) = true := by
      simp [cleanCI, ClassInfo.init, hclean.1]
    obtain ⟨hext, hcl⟩ := ih hclean.2 hc1
    have hciv : (visitList { v with classinfo := some (ClassInfo.init name bases) }
        body).classinfo = none := hci
    simp only [visit, hciv]
    exact ⟨hext, hcC⟩
  case case3 =>
    intro v name args body ci hci ih hclean hcC
    rw [cleanStmt] at hclean
    rw [hci] at ih hcC
    simp only [visit, hci]
    by_cases hn : name = "__init__" <;> simp only [hn, reduceIte, hci]
    · obtain ⟨hext, hcl⟩ := ih hclean hcC
      exact ⟨hext, cleanCI_map_add_method _ _ _ hcl⟩
    · exact ⟨NeutralExt.nrefl _, cleanCI_map_add_method _ _ _ hcC⟩
  case case4 =>
    intro v name args body hci hclean hcC
    simp only [visit, hci]
    exact ⟨NeutralExt.nrefl _, rfl⟩
  case case5 =>
    intro v targets hc hclean hcC
    rw [cleanStmt] at hclean
    simp only [visit, hc, if_true]
    exact ⟨NeutralExt.nrefl _, cleanCI_assignMembers targets _ hcC hclean⟩
  case case6 =>
    intro v targets hc ci hci hclean hcC
    rw [cleanStmt] at hclean
    simp only [visit, if_neg hc, hci]
    rw [hci] at hcC
    exact ⟨NeutralExt.nrefl _, cleanCI_assignClassvars targets _ hcC hclean⟩
  case case7 =>
    intro v targets hc hci hclean hcC
    simp only [visit, if_neg hc, hci]
    exact ⟨NeutralExt.nrefl _, rfl⟩
  case case8 =>
    intro v children ih hclean hcC
    rw [cleanStmt] at hclean
    simp only [visit]
    exact ih hclean hcC
  case case9 =>
    intro v _ hcC
    simp only [visitList]
    exact ⟨NeutralExt.nrefl _, hcC⟩
  case case10 =>
    intro v t ts ih1 ih2 hclean hcC
    rw [cleanStmts, Bool.and_eq_true] at hclean
    simp only [visitList]
    obtain ⟨hext1, hcl1⟩ := ih1 hclean.1 hcC
    obtain ⟨hext2, hcl2⟩ := ih2 hclean.2 hcl1
    exact ⟨hext1.ntrans hext2, hcl2⟩

theorem countP_of_neutral {d : List String} (h : ∀ c ∈ d, neutralChunk c = true) :
    d.countP isNsOpen = 0 ∧ d.countP isNsClose = 0 := by
  constructor <;> refine List.countP_eq_zero.mpr ?_ <;> intro c hc <;>
    have hn := h c hc <;>
    simp only [neutralChunk, Bool.and_eq_true, Bool.not_eq_true'] at hn
  · simp [hn.1]
  · simp [hn.2]

/-- The balance invariant carried across the whole multi-file run: namespace
opens exceed closes by exactly the current stack depth, the generator's root
and (absent) configuration are stable, and the in-progress record is
well-formed. -/
def BalInv (root : String) (v : TreeVisitor) : Prop :=
  v.context.dest.countP isNsOpen
    = v.context.dest.countP isNsClose + v.context.namespaces.length ∧
  v.context.root = root ∧ v.context.config = none ∧ cleanCI v.classinfo = true

theorem BalInv_start_file {root : String} (hroot : ¬ root = "") {v : TreeVisitor}
    (p : String) (h : BalInv root v) :
    BalInv root { v with context := v.context.start_file p } := by
  obtain ⟨hbal, hr, hcfg, hci⟩ := h
  have hr' : ¬ v.context.root = "" := by rw [hr]; exact hroot
  obtain ⟨hns, hroot2, hcfg2, dcl, dop, hdest, hlcl, hlop, hcl, hop⟩ :=
    start_file_spec v.context p hr'
  have hOcl : dcl.countP isNsOpen = 0 :=
    List.countP_eq_zero.mpr (fun c hc => by simp [(hcl c hc).2])
  have hCcl : dcl.countP isNsClose = dcl.length :=
    List.countP_eq_length.mpr (fun c hc => (hcl c hc).1)
  have hOop : dop.countP isNsOpen = dop.length :=
    List.countP_eq_length.mpr (fun c hc => (hop c hc).1)
  have hCop : dop.countP isNsClose = 0 :=
    List.countP_eq_zero.mpr (fun c hc => by simp [(hop c hc).2])
  have hn1 := commonLen_le_left v.context.namespaces (pathToNamespaces v.context.root p)
  have hn2 := commonLen_le_right v.context.namespaces (pathToNamespaces v.context.root p)
  refine ⟨?_, by rw [hroot2, hr], by rw [hcfg2, hcfg], hci⟩
  show (v.context.start_file p).dest.countP isNsOpen
    = (v.context.start_file p).dest.countP isNsClose + (v.context.start_file p).namespaces.length
  rw [hdest, hns, List.countP_append, List.countP_append, List.countP_append,
    List.countP_append, hOcl, hCcl, hOop, hCop, hlcl, hlop]
  omega

theorem BalInv_visit {root : String} {v : TreeVisitor} (tree : List Stmt)
    (hclean : cleanStmts tree = true) (h : BalInv root v) : BalInv root (visitList v tree) := by
  obtain ⟨hbal, hr, hcfg, hci⟩ := h
  obtain ⟨hext, hcl⟩ := visit_neutral_all.2 v tree hclean hci
  obtain ⟨d, hd, hnd⟩ := hext
  obtain ⟨hO, hC⟩ := countP_of_neutral hnd
  obtain ⟨hroot2, hcfg2, hns2, _, _⟩ := (visit_destExt_all.2 v tree).1
  refine ⟨?_, by rw [hroot2, hr], by rw [hcfg2, hcfg], hcl⟩
  rw [hd, hns2, List.countP_append, List.countP_append, hO, hC]
  omega

/-- **C4** (confirmed): for a run over any sequence of input files under a
root directory (with well-formed, brace-free identifiers — true of all
parsed Python), after the footer the number of namespace-open markers in
the output equals the number of namespace-close markers, and the namespace
stack is empty: every opened namespace has been closed exactly once. -/
theorem C4_namespace_balance (root : String) (files : List (String × List Stmt))
    (hroot : ¬ root = "") (hclean : ∀ f ∈ files, cleanStmts f.2 = true) :
    (run root none files).context.dest.countP isNsOpen
      = (run root none files).context.dest.countP isNsClose ∧
    (run root none files).context.namespaces = [] := by
  have h0 : BalInv root { TreeVisitor.init (PUML_Generator.init root none) with
      context := (PUML_Generator.init root none).header } := by
    refine ⟨?_, rfl, rfl, rfl⟩
    have hn := neutral_header (PUML_Generator.init root none)
    simp only [neutralChunk, Bool.and_eq_true, Bool.not_eq_true'] at hn
    show ((PUML_Generator.init root none).header).dest.countP isNsOpen
      = ((PUML_Generator.init root none).header).dest.countP isNsClose
        + ((PUML_Generator.init root none).header).namespaces.length
    have hh : (PUML_Generator.init root none).header
        = (PUML_Generator.init root none).indent ["@startuml"] := rfl
    rw [hh, indent_dest, show (PUML_Generator.init root none).dest = ([] : List String)
      from rfl, show ((PUML_Generator.init root none).indent ["@startuml"]).namespaces
      = ([] : List String) from rfl]
    simp [List.countP_cons, List.countP_nil, joinSp, hn.1, hn.2]
  have hstep : ∀ (v : TreeVisitor) (f : String × List Stmt), cleanStmts f.2 = true →
      BalInv root v → BalInv root (processFile v f) := by
    intro v f hcf h
    have h1 := BalInv_start_file hroot f.1 h
    have h2 := BalInv_visit f.2 hcf h1
    exact ⟨h2.1, h2.2.1, h2.2.2.1, h2.2.2.2⟩
  have hfold : ∀ (fs : List (String × List Stmt)) (v : TreeVisitor),
      (∀ f ∈ fs, cleanStmts f.2 = true) → BalInv root v →
      BalInv root (fs.foldl processFile v) := by
    intro fs
    induction fs with
    | nil => intro v _ h; exact h
    | cons f fs ih =>
      intro v hcl h
      rw [List.foldl_cons]
      exact ih _ (fun f' hf' => hcl f' (List.mem_cons_of_mem f hf'))
        (hstep v f (hcl f (List.mem_cons_self f fs)) h)
  have hrun := hfold files _ hclean h0
  have hrc : (run root none files).context
      = (files.foldl processFile { TreeVisitor.init (PUML_Generator.init root none) with
          context := (PUML_Generator.init root none).header }).context.footer := rfl
  obtain ⟨hbal, hr, hcfg, hci⟩ := hrun
  set w := files.foldl processFile { TreeVisitor.init (PUML_Generator.init root none) with
    context := (PUML_Generator.init root none).header } with hw
  obtain ⟨pns, proot, pcfg, psrc, dcl, pdest, plen, pcls⟩ :=
    pop_ns_spec w.context.depth w.context
  have hOcl : dcl.countP isNsOpen = 0 :=
    List.countP_eq_zero.mpr (fun c hc => by simp [(pcls c hc).2])
  have hCcl : dcl.countP isNsClose = dcl.length :=
    List.countP_eq_length.mpr (fun c hc => (pcls c hc).1)
  have hcfgp : (w.context.pop_ns w.context.depth).config = none := by rw [pcfg, hcfg]
  have hfoot : w.context.footer = (w.context.pop_ns w.context.depth).indent ["@enduml"] := by
    unfold PUML_Generator.footer
    simp only [hcfgp]
  have hend := neutral_enduml (w.context.pop_ns w.context.depth)
  simp only [neutralChunk, Bool.and_eq_true, Bool.not_eq_true'] at hend
  constructor
  · rw [hrc, hfoot, indent_dest, pdest]
    rw [List.countP_append, List.countP_append, List.countP_append, List.countP_append]
    rw [hOcl, hCcl, plen]
    have hchunk : lineChunk (w.context.pop_ns w.context.depth) (joinSp ["@enduml"])
        = lineChunk (w.context.pop_ns w.context.depth) "@enduml" := rfl
    rw [hchunk]
    simp only [List.countP_cons, List.countP_nil, hend.1, hend.2]
    show w.context.dest.countP isNsOpen + 0 + 0
      = w.context.dest.countP isNsClose + w.context.depth + 0
    rw [hbal]
    rfl
  · rw [hrc, hfoot]
    show (w.context.pop_ns w.context.depth).namespaces = []
    rw [pns]
    simp [PUML_Generator.depth]

/-- Witness for C4: one file under root `a` containing one class. -/
theorem C4_witness :
    (run "a" none [("a/b/X.py", [.ClassDef "C" [] [.Other []]])]).context.dest.countP isNsOpen
      = (run "a" none
          [("a/b/X.py", [.ClassDef "C" [] [.Other []]])]).context.dest.countP isNsClose ∧
    (run "a" none [("a/b/X.py", [.ClassDef "C" [] [.Other []]])]).context.namespaces = [] :=
  C4_namespace_balance "a" [("a/b/X.py", [.ClassDef "C" [] [.Other []]])]
    (by decide) (by decide)
